import Mathlib

/-!
Verification of the youtrack-sdk field-projection engine, entity codec and
transport error mapping.

The development shallowly embeds the Python sources:

* `youtrack_sdk/helpers.py` — `deep_update`, `model_to_field_names`,
  `obj_to_dict`, `YouTrackTimestampEncoder` / `custom_json_dumps`,
  `get_single_value`, `get_issue_custom_field`;
* `youtrack_sdk/types.py` — `YouTrackDate`, `validate_youtrack_datetime`;
* `youtrack_sdk/entities.py` — the pydantic entity model, transcribed into an
  explicit field-descriptor table (`Mdl`), together with the pydantic
  construction/validation semantics the model relies on (dump with
  `exclude_unset` / `exclude_none`, alias-keyed population, discriminated-union
  dispatch on the `$type` tag);
* `youtrack_sdk/async_client.py` — the response handling of `_send_request`,
  `_get_bytes` and `_post_bytes`.

Python values that can appear in a wire map (the output of `obj_to_dict`,
i.e. a `model_dump` in python mode) are modelled by the `Wire` family below:
mappings are association lists in insertion order (Python dicts preserve
insertion order and `result[key] = v` keeps the position of an existing key),
`datetime` / `date` objects are kept as distinct constructors carrying epoch
milliseconds resp. days since 1970-01-01 (the proleptic-Gregorian ordinal
shifted to the Unix epoch), and floats are opaque tokens except for the
NaN / infinity values that `json.dumps(..., allow_nan=False)` rejects.
-/

/-- Python float values, up to what the codec observes: NaN and the two
infinities are distinguished because `json.dumps(..., allow_nan=False)`
rejects them; all finite floats are opaque tokens. -/
inductive FloatRep where
  | nan
  | inf
  | ninf
  | finite (tok : Nat)
deriving DecidableEq, Repr

/-- Errors raised by the embedded Python code. `typeError` stands for the
`TypeError` raised by `deep_update` on structural mismatch (its message text is
not modelled); `attributeError` for the `AttributeError` raised when iterating
a non-dict in `deep_update` or navigating an attribute of `None`;
`runtimeError` for the `RuntimeError` of `validate_youtrack_datetime`;
`valueError` carries the exact message of a `ValueError`; the remaining
constructors are pydantic validation errors (missing required field, wrong
type for a field, discriminated-union tag missing / unrecognized, no member of
a non-discriminated union matched). -/
inductive PyErr where
  | typeError
  | attributeError
  | runtimeError
  | valueError (msg : String)
  | missingField (wire : String)
  | invalidValue
  | unionTagMissing
  | unionTagInvalid
  | unionNoMatch
  | nonSingleValue
deriving DecidableEq, Repr

mutual
/-- A Python value inside a wire map: `None`, scalars, `datetime` (aware, as
epoch milliseconds), `date` (as days since 1970-01-01), lists and dicts. -/
inductive Wire where
  | null
  | bool (b : Bool)
  | int (n : Int)
  | flt (x : FloatRep)
  | str (s : String)
  | dt (ms : Int)
  | date (d : Int)
  | arr (elems : WList)
  | obj (entries : WObj)
deriving DecidableEq, Repr

/-- A Python list of wire values. -/
inductive WList where
  | nil
  | cons (w : Wire) (rest : WList)
deriving DecidableEq, Repr

/-- A Python dict keyed by strings, in insertion order. -/
inductive WObj where
  | nil
  | cons (k : String) (v : Wire) (rest : WObj)
deriving DecidableEq, Repr
end

/-- Length of a wire list (Python `len`). -/
def WList.length : WList → Nat
  | .nil => 0
  | .cons _ rest => 1 + rest.length

/-- Dict lookup (`key in result` / `result[key]`): first binding wins. -/
def lookupW (k : String) : WObj → Option Wire
  | .nil => none
  | .cons k' v rest => if k' = k then some v else lookupW k rest

/-- In-place update of an existing key (`result[key] = value` keeps the
position of a key that is already present). Only used when the key occurs. -/
def setW (k : String) (v : Wire) : WObj → WObj
  | .nil => .nil
  | .cons k' v' rest => if k' = k then .cons k' v rest else .cons k' v' (setW k v rest)

/-- Appending a fresh key at the end (`result[key] = value` on a new key). -/
def appendW : WObj → String → Wire → WObj
  | .nil, k, v => .cons k v .nil
  | .cons k' v' rest, k, v => .cons k' v' (appendW rest k v)

/-- The CPython type of a wire value, for the `type(result[key]) is not
type(value)` check in `deep_update`. Distinct constructors model distinct
Python types; in particular `bool` is not `int`, and `datetime` is not `date`
(`type` does not identify a subclass with its parent). -/
def structTag : Wire → Nat
  | .null => 0
  | .bool _ => 1
  | .int _ => 2
  | .flt _ => 3
  | .str _ => 4
  | .dt _ => 5
  | .date _ => 6
  | .arr _ => 7
  | .obj _ => 8

mutual
/-- One iteration of the inner loop of `helpers.deep_update`: merge the
binding `key ↦ value` into `result`. The Python body first checks
`type(result[key]) is not type(value)` and raises `TypeError`, then merges
dict-in-dict recursively, merges list-in-list element-wise after a length
check, and otherwise assigns `result[key] = value`. The dispatch below is
organized by the shape of `value` first, which is extensionally the same:
when `value` is a dict (resp. list) and the key is present, a destination of
any other shape fails the type-identity check; for all other shapes of
`value` the explicit check remains. -/
def updateOne (dest : WObj) (k : String) (v : Wire) : Except PyErr WObj :=
  match v with
  | .obj ss =>
    match lookupW k dest with
    | none => .ok (appendW dest k (.obj ss))
    | some (.obj rs) => (deep_update_pass rs ss).map (fun m => setW k (.obj m) dest)
    | some _ => .error .typeError
  | .arr ys =>
    match lookupW k dest with
    | none => .ok (appendW dest k (.arr ys))
    | some (.arr xs) =>
      if xs.length ≠ ys.length then .error .typeError
      else (mergeElems xs ys).map (fun zs => setW k (.arr zs) dest)
    | some _ => .error .typeError
  | v =>
    match lookupW k dest with
    | none => .ok (appendW dest k v)
    | some r =>
      if structTag r ≠ structTag v then .error .typeError
      else .ok (setW k v dest)
termination_by structural v

/-- `deep_update` restricted to a single source mapping: iterate over the
source bindings in order, merging each into the accumulated result. -/
def deep_update_pass (dest : WObj) : WObj → Except PyErr WObj
  | .nil => .ok dest
  | .cons k v rest =>
    match updateOne dest k v with
    | .ok d => deep_update_pass d rest
    | .error e => .error e
termination_by structural s => s

/-- Element-wise merge of two equal-length lists,
`starmap(deep_update, zip(result[key], value, strict=True))`. -/
def mergeElems : WList → WList → Except PyErr WList
  | .nil, _ => .ok .nil
  | .cons _ _, .nil => .ok .nil
  | .cons x xs, .cons y ys =>
    match mergeElem x y with
    | .ok z => (mergeElems xs ys).map (fun zs => .cons z zs)
    | .error e => .error e
termination_by structural _ ys => ys

/-- Merging one pair of list elements calls `deep_update` on them with no
type check: if both are dicts it merges; a non-dict destination with a dict
source raises `TypeError` (string key lookup / assignment on a non-dict), and
a non-dict source raises `AttributeError` (`source.items()` does not exist). -/
def mergeElem : Wire → Wire → Except PyErr Wire
  | .obj a, .obj b => (deep_update_pass a b).map .obj
  | _, .obj _ => .error .typeError
  | _, _ => .error .attributeError
termination_by structural _ y => y
end

/-- `helpers.deep_update(dest, *mappings)`: fold the source mappings into the
destination from left to right. (The `deepcopy` of the source is immaterial in
a pure model.) -/
def deep_update (dest : WObj) : List WObj → Except PyErr WObj
  | [] => .ok dest
  | s :: rest =>
    match deep_update_pass dest s with
    | .ok d => deep_update d rest
    | .error e => .error e

/-- Reading off the head binding step of `deep_update_pass`. -/
theorem deep_update_pass_cons (dest : WObj) (k : String) (v : Wire) (rest : WObj) :
    deep_update_pass dest (.cons k v rest) =
      match updateOne dest k v with
      | .ok d => deep_update_pass d rest
      | .error e => .error e := by
  rfl

/-- Behavior of the merge loop body on a dict-valued binding with the key
present: recursive merge. -/
theorem updateOne_obj (d : WObj) (k : String) (rs ss : WObj)
    (hl : lookupW k d = some (.obj rs)) :
    updateOne d k (.obj ss) = (deep_update_pass rs ss).map (fun m => setW k (.obj m) d) := by
  unfold updateOne
  rw [hl]

/-- Behavior on a list-valued binding with the key present and lengths
matching: element-wise merge. -/
theorem updateOne_arr (d : WObj) (k : String) (xs ys : WList)
    (hl : lookupW k d = some (.arr xs)) (hlen : xs.length = ys.length) :
    updateOne d k (.arr ys) = (mergeElems xs ys).map (fun zs => setW k (.arr zs) d) := by
  unfold updateOne
  rw [hl]
  simp [hlen]

/-- Behavior on a list-valued binding with mismatched lengths: a structural
`TypeError`. -/
theorem updateOne_arr_mismatch (d : WObj) (k : String) (xs ys : WList)
    (hl : lookupW k d = some (.arr xs)) (hlen : xs.length ≠ ys.length) :
    updateOne d k (.arr ys) = .error .typeError := by
  unfold updateOne
  rw [hl]
  simp [hlen]

/-- Behavior on a binding whose destination and source values have different
structural types: a structural `TypeError`. -/
theorem updateOne_mismatch (d : WObj) (k : String) (r v : Wire)
    (hl : lookupW k d = some r) (hne : structTag r ≠ structTag v) :
    updateOne d k v = .error .typeError := by
  cases v <;> unfold updateOne <;> rw [hl] <;> cases r <;>
    first
    | rfl
    | exact absurd rfl hne

/-- Behavior on a same-type scalar binding: the source value overwrites. -/
theorem updateOne_scalar (d : WObj) (k : String) (r v : Wire)
    (hl : lookupW k d = some r) (heq : structTag r = structTag v)
    (hnarr : ∀ es, v ≠ .arr es) (hnobj : ∀ es, v ≠ .obj es) :
    updateOne d k v = .ok (setW k v d) := by
  cases v with
  | arr es => exact absurd rfl (hnarr es)
  | obj es => exact absurd rfl (hnobj es)
  | null => unfold updateOne; rw [hl]; simp [heq]
  | bool b => unfold updateOne; rw [hl]; simp [heq]
  | int n => unfold updateOne; rw [hl]; simp [heq]
  | flt x => unfold updateOne; rw [hl]; simp [heq]
  | str s => unfold updateOne; rw [hl]; simp [heq]
  | dt ms => unfold updateOne; rw [hl]; simp [heq]
  | date dd => unfold updateOne; rw [hl]; simp [heq]

/-- Behavior on an absent key: the binding is appended. -/
theorem updateOne_absent (d : WObj) (k : String) (v : Wire)
    (hl : lookupW k d = none) : updateOne d k v = .ok (appendW d k v) := by
  cases v <;> unfold updateOne <;> rw [hl]

/-- Claim C7: the recursive deep-merge `deep_update` merges dict-in-dict
recursively, merges list-in-list element-wise after requiring equal lengths
(raising a structural-mismatch `TypeError` when they differ), raises a
structural-mismatch `TypeError` when the destination and source values at the
same key have different structural types, and otherwise lets the later
(source) value overwrite the earlier one (including appending keys absent
from the destination); a single-source `deep_update` call is exactly one
merge pass. -/
theorem c7_deep_update_merge_cases :
    (∀ (d : WObj) (k : String) (rs ss : WObj), lookupW k d = some (.obj rs) →
      updateOne d k (.obj ss) = (deep_update_pass rs ss).map (fun m => setW k (.obj m) d))
    ∧ (∀ (d : WObj) (k : String) (xs ys : WList), lookupW k d = some (.arr xs) →
        xs.length = ys.length →
        updateOne d k (.arr ys) = (mergeElems xs ys).map (fun zs => setW k (.arr zs) d))
    ∧ (∀ (d : WObj) (k : String) (xs ys : WList), lookupW k d = some (.arr xs) →
        xs.length ≠ ys.length → updateOne d k (.arr ys) = .error .typeError)
    ∧ (∀ (d : WObj) (k : String) (r v : Wire), lookupW k d = some r →
        structTag r ≠ structTag v → updateOne d k v = .error .typeError)
    ∧ (∀ (d : WObj) (k : String) (r v : Wire), lookupW k d = some r →
        structTag r = structTag v → (∀ es, v ≠ .arr es) → (∀ es, v ≠ .obj es) →
        updateOne d k v = .ok (setW k v d))
    ∧ (∀ (d : WObj) (k : String) (v : Wire), lookupW k d = none →
        updateOne d k v = .ok (appendW d k v))
    ∧ (∀ (d s : WObj), deep_update d [s] = deep_update_pass d s) := by
  refine ⟨updateOne_obj, updateOne_arr, updateOne_arr_mismatch, updateOne_mismatch,
    updateOne_scalar, updateOne_absent, ?_⟩
  intro d s
  show (match deep_update_pass d s with
    | .ok d' => deep_update d' []
    | .error e => .error e) = deep_update_pass d s
  cases deep_update_pass d s <;> rfl

/-- Witness for C7 at concrete inputs: dict-in-dict merge, list length
mismatch, scalar type mismatch, scalar overwrite and fresh-key append. -/
theorem c7_deep_update_merge_cases_witness :
    (lookupW "a" (.cons "a" (.obj (.cons "x" (.int 1) .nil)) .nil)
        = some (.obj (.cons "x" (.int 1) .nil))
      ∧ updateOne (.cons "a" (.obj (.cons "x" (.int 1) .nil)) .nil) "a"
          (.obj (.cons "y" (.int 2) .nil))
        = (deep_update_pass (.cons "x" (.int 1) .nil) (.cons "y" (.int 2) .nil)).map
            (fun m => setW "a" (.obj m) (.cons "a" (.obj (.cons "x" (.int 1) .nil)) .nil)))
    ∧ (WList.length (.cons (.int 1) .nil) ≠ WList.length .nil
      ∧ updateOne (.cons "a" (.arr (.cons (.int 1) .nil)) .nil) "a" (.arr .nil)
        = .error .typeError)
    ∧ (structTag (.int 1) ≠ structTag (.str "s")
      ∧ updateOne (.cons "a" (.int 1) .nil) "a" (.str "s") = .error .typeError)
    ∧ (updateOne (.cons "a" (.int 1) .nil) "a" (.int 2)
        = .ok (setW "a" (.int 2) (.cons "a" (.int 1) .nil)))
    ∧ (lookupW "b" (.cons "a" (.int 1) .nil) = none
      ∧ updateOne (.cons "a" (.int 1) .nil) "b" (.int 2)
        = .ok (appendW (.cons "a" (.int 1) .nil) "b" (.int 2))) := by
  refine ⟨⟨by rfl, ?_⟩, ⟨by decide, ?_⟩, ⟨by decide, ?_⟩, ?_, ⟨by rfl, ?_⟩⟩
  · exact c7_deep_update_merge_cases.1 _ "a" _ _ (by rfl)
  · exact c7_deep_update_merge_cases.2.2.1 _ "a" _ _ (by rfl) (by decide)
  · exact c7_deep_update_merge_cases.2.2.2.1 _ "a" _ _ (by rfl) (by decide)
  · exact c7_deep_update_merge_cases.2.2.2.2.1 _ "a" (.int 1) _ (by rfl) (by decide)
      (fun es h => by cases h) (fun es h => by cases h)
  · exact c7_deep_update_merge_cases.2.2.2.2.2.1 _ "b" _ (by rfl)

/-- Days since 1970-01-01 of the proleptic-Gregorian calendar date
`y-m-d` (the standard civil-from-days algorithm, used to connect the concrete
dates appearing in the specification to the day ordinals carried by
`Wire.date`). All intermediate divisions act on non-negative operands. -/
def daysFromCivil (y m d : Int) : Int :=
  let yy := if m ≤ 2 then y - 1 else y
  let era := (if 0 ≤ yy then yy else yy - 399).ediv 400
  let yoe := yy - era * 400
  let mp := (m + 9).emod 12
  let doy := (153 * mp + 2).ediv 5 + d - 1
  let doe := yoe * 365 + yoe.ediv 4 - yoe.ediv 100 + doy
  era * 146097 + doe - 719468

/-- Epoch milliseconds of the aware instant `y-mo-d h:mi:s` UTC. -/
def msOfCivil (y mo d h mi s : Int) : Int :=
  (daysFromCivil y mo d * 86400 + (h * 3600 + mi * 60 + s)) * 1000

/-- The `ValueError` message of `json.dumps` with `allow_nan=False`
(CPython appends the repr of the offending float). -/
def outOfRangeMsg (x : FloatRep) : String :=
  match x with
  | .nan => "Out of range float values are not JSON compliant: nan"
  | .inf => "Out of range float values are not JSON compliant: inf"
  | .ninf => "Out of range float values are not JSON compliant: -inf"
  | .finite _ => ""

mutual
/-- `helpers.custom_json_dumps` = `json.dumps(obj, cls=YouTrackTimestampEncoder,
allow_nan=False)`, modelled up to the JSON token tree (the rendering of plain
scalars into characters is elided): an aware `datetime` is rendered as
`int(dt.timestamp() * 1000)`, i.e. its epoch milliseconds; a plain `date` is
rendered as the epoch milliseconds of `datetime.combine(o, time(hour=12,
tzinfo=UTC))`, i.e. noon UTC of that day; NaN and the infinities raise
`ValueError` instead of being serialized; everything else passes through. -/
def serializeWire : Wire → Except PyErr Wire
  | .null => .ok .null
  | .bool b => .ok (.bool b)
  | .int n => .ok (.int n)
  | .str s => .ok (.str s)
  | .flt (.finite t) => .ok (.flt (.finite t))
  | .flt .nan => .error (.valueError (outOfRangeMsg .nan))
  | .flt .inf => .error (.valueError (outOfRangeMsg .inf))
  | .flt .ninf => .error (.valueError (outOfRangeMsg .ninf))
  | .dt ms => .ok (.int ms)
  | .date d => .ok (.int ((d * 86400 + 43200) * 1000))
  | .arr ws => (serializeWList ws).map .arr
  | .obj kvs => (serializeWObj kvs).map .obj
termination_by structural w => w

/-- Serialization of the elements of a list value. -/
def serializeWList : WList → Except PyErr WList
  | .nil => .ok .nil
  | .cons w rest =>
    match serializeWire w with
    | .ok w' => (serializeWList rest).map (fun rest' => .cons w' rest')
    | .error e => .error e
termination_by structural l => l

/-- Serialization of the values of a mapping. -/
def serializeWObj : WObj → Except PyErr WObj
  | .nil => .ok .nil
  | .cons k v rest =>
    match serializeWire v with
    | .ok v' => (serializeWObj rest).map (fun rest' => .cons k v' rest')
    | .error e => .error e
termination_by structural o => o
end

/-- Source-named alias: `helpers.custom_json_dumps`. -/
def custom_json_dumps : Wire → Except PyErr Wire := serializeWire

mutual
/-- Whether a wire value contains a NaN or infinite float anywhere. -/
def containsBadFloat : Wire → Bool
  | .flt .nan => true
  | .flt .inf => true
  | .flt .ninf => true
  | .arr ws => containsBadFloatL ws
  | .obj kvs => containsBadFloatO kvs
  | _ => false
termination_by structural w => w

/-- List version of `containsBadFloat`. -/
def containsBadFloatL : WList → Bool
  | .nil => false
  | .cons w rest => containsBadFloat w || containsBadFloatL rest
termination_by structural l => l

/-- Mapping version of `containsBadFloat`. -/
def containsBadFloatO : WObj → Bool
  | .nil => false
  | .cons _ v rest => containsBadFloat v || containsBadFloatO rest
termination_by structural o => o
end

mutual
/-- A wire value containing a NaN or infinity fails to serialize, as
`allow_nan=False` demands. -/
theorem serialize_badFloat (w : Wire) (h : containsBadFloat w = true) :
    ∃ e, serializeWire w = .error e := by
  cases w with
  | flt x =>
    cases x with
    | nan => exact ⟨_, rfl⟩
    | inf => exact ⟨_, rfl⟩
    | ninf => exact ⟨_, rfl⟩
    | finite t => simp [containsBadFloat] at h
  | arr ws =>
    obtain ⟨e, hm⟩ := serialize_badFloatL ws (by simpa [containsBadFloat] using h)
    exact ⟨e, by rw [serializeWire, hm]; rfl⟩
  | obj kvs =>
    obtain ⟨e, hm⟩ := serialize_badFloatO kvs (by simpa [containsBadFloat] using h)
    exact ⟨e, by rw [serializeWire, hm]; rfl⟩
  | null => simp [containsBadFloat] at h
  | bool b => simp [containsBadFloat] at h
  | int n => simp [containsBadFloat] at h
  | str s => simp [containsBadFloat] at h
  | dt ms => simp [containsBadFloat] at h
  | date d => simp [containsBadFloat] at h
termination_by structural w

/-- List version of `serialize_badFloat`. -/
theorem serialize_badFloatL (ws : WList) (h : containsBadFloatL ws = true) :
    ∃ e, serializeWList ws = .error e := by
  cases ws with
  | nil => simp [containsBadFloatL] at h
  | cons w rest =>
    rw [containsBadFloatL, Bool.or_eq_true] at h
    rw [serializeWList]
    cases hw : serializeWire w with
    | error e => exact ⟨e, rfl⟩
    | ok w2 =>
      rcases h with h | h
      · obtain ⟨e, hm⟩ := serialize_badFloat w h
        rw [hw] at hm
        exact absurd hm (by simp)
      · obtain ⟨e, hm⟩ := serialize_badFloatL rest h
        exact ⟨e, by rw [hm]; rfl⟩
termination_by structural ws

/-- Mapping version of `serialize_badFloat`. -/
theorem serialize_badFloatO (kvs : WObj) (h : containsBadFloatO kvs = true) :
    ∃ e, serializeWObj kvs = .error e := by
  cases kvs with
  | nil => simp [containsBadFloatO] at h
  | cons k v rest =>
    rw [containsBadFloatO, Bool.or_eq_true] at h
    rw [serializeWObj]
    cases hw : serializeWire v with
    | error e => exact ⟨e, rfl⟩
    | ok v2 =>
      rcases h with h | h
      · obtain ⟨e, hm⟩ := serialize_badFloat v h
        rw [hw] at hm
        exact absurd hm (by simp)
      · obtain ⟨e, hm⟩ := serialize_badFloatO rest h
        exact ⟨e, by rw [hm]; rfl⟩
termination_by structural kvs
end

/-- Claim C6: the wire-byte serializer renders every aware datetime as its
epoch-millisecond count (`2021-02-09T14:03:11Z` gives `1612879391000`),
renders every date as the epoch milliseconds of noon UTC on that day
(`2022-02-17` gives `1645099200000`), and rejects NaN / infinite floats with
an error instead of serializing them. -/
theorem c6_timestamp_encoding :
    (∀ ms : Int, custom_json_dumps (.dt ms) = .ok (.int ms))
    ∧ custom_json_dumps (.dt (msOfCivil 2021 2 9 14 3 11)) = .ok (.int 1612879391000)
    ∧ (∀ d : Int, custom_json_dumps (.date d) = .ok (.int ((d * 86400 + 43200) * 1000)))
    ∧ custom_json_dumps (.date (daysFromCivil 2022 2 17)) = .ok (.int 1645099200000)
    ∧ (∀ x : FloatRep, x = .nan ∨ x = .inf ∨ x = .ninf →
        custom_json_dumps (.flt x) = .error (.valueError (outOfRangeMsg x)))
    ∧ (∀ w : Wire, containsBadFloat w = true →
        ∃ e, custom_json_dumps w = .error e) := by
  refine ⟨fun ms => rfl, by rfl, fun d => rfl, by rfl, ?_, serialize_badFloat⟩
  rintro x (rfl | rfl | rfl) <;> rfl

/-- Witness for C6: a NaN inside a nested structure is rejected. -/
theorem c6_timestamp_encoding_witness :
    containsBadFloat (.obj (.cons "x" (.arr (.cons (.flt .nan) .nil)) .nil)) = true
    ∧ (∃ e, custom_json_dumps (.obj (.cons "x" (.arr (.cons (.flt .nan) .nil)) .nil))
        = .error e)
    ∧ custom_json_dumps (.flt .nan) = .error (.valueError (outOfRangeMsg .nan)) :=
  ⟨by decide, c6_timestamp_encoding.2.2.2.2.2 _ (by decide),
    c6_timestamp_encoding.2.2.2.2.1 .nan (Or.inl rfl)⟩

/-- The `YouTrackDate` decoder of `types.py` on an integer wire value: the
`BeforeValidator` turns epoch milliseconds into the aware instant
`datetime.fromtimestamp(d / 1000, UTC) - timedelta(hours=12)`, and pydantic
then accepts that instant as a `date` exactly when its time-of-day is
midnight, yielding that day. -/
def youtrack_date_decode_int (n : Int) : Except PyErr Int :=
  if (n - 43200000).emod 86400000 = 0 then .ok ((n - 43200000).ediv 86400000)
  else .error .invalidValue

/-- Claim C10: the minus-12-hours integer decode rule of `YouTrackDate`
exactly inverts the noon-UTC date encoding of `YouTrackTimestampEncoder`, for
every calendar date (represented by its day ordinal). -/
theorem c10_date_decode_inverts_encode :
    ∀ d : Int, custom_json_dumps (.date d) = .ok (.int ((d * 86400 + 43200) * 1000))
      ∧ youtrack_date_decode_int ((d * 86400 + 43200) * 1000) = .ok d := by
  intro d
  refine ⟨rfl, ?_⟩
  unfold youtrack_date_decode_int
  have h : (d * 86400 + 43200) * 1000 - 43200000 = d * 86400000 := by ring
  rw [h]
  have h2 : (d * 86400000).emod 86400000 = 0 := Int.mul_emod_left d 86400000
  have h3 : (d * 86400000).ediv 86400000 = d := Int.mul_ediv_cancel d (by norm_num)
  rw [if_pos h2, h3]

/-- A candidate value for the `SimpleIssueCustomField.value` union
(`Optional[YouTrackDateTime | StrictStr | StrictInt | StrictFloat]`): `None`,
an aware instant (epoch milliseconds), a string, an integer or a float.
(Python `bool`, an `int` subclass that pydantic strict types reject, is
outside the modelled domain.) -/
inductive SimpleVal where
  | none
  | dt (ms : Int)
  | str (s : String)
  | int (n : Int)
  | flt (x : FloatRep)
deriving DecidableEq, Repr

/-- What `validate_youtrack_datetime` observes of the already-validated
sibling `info.data["project_custom_field"]`: the sibling may be `None`
(falsy, so the whole condition short-circuits to pass-through); the attribute
access `project_custom_field.field.field_type.id` may raise `AttributeError`
(when `.field` or `.field.field_type` is `None` or not a model); otherwise
the navigation yields the (optional) field-type id string. -/
inductive PcfView where
  | null
  | crash
  | idOf (id : Option String)
deriving DecidableEq, Repr

/-- The `pydantic_core.ValidationInfo` state consulted by
`validate_youtrack_datetime`: whether the key `project_custom_field` is
present in `info.data` at all, and if so what the sibling looks like. -/
structure VdtInfo where
  hasPcf : Bool
  pcf : PcfView
deriving DecidableEq, Repr

/-- `types.validate_youtrack_datetime(value, info)`. The conversion of an
integer `value` is `datetime.fromtimestamp(value / 1000, UTC)`, the aware
instant whose epoch-millisecond count is `value` itself (exact for every
millisecond count representable in a double). The guard
`project_custom_field and project_custom_field.field.field_type.id == "date
and time" and value is not None` evaluates the attribute chain before the
`value is not None` test, so a sibling with a `None` `.field` (or
`.field.field_type`) raises `AttributeError` even for a `None` value. -/
def validate_youtrack_datetime (v : SimpleVal) (info : VdtInfo) : Except PyErr SimpleVal :=
  if info.hasPcf = false then .error .runtimeError
  else
    match info.pcf with
    | .null => .ok v
    | .crash => .error .attributeError
    | .idOf id =>
      if id = some "date and time" ∧ v ≠ .none then
        match v with
        | .dt ms => .ok (.dt ms)
        | .int n => .ok (.dt n)
        | _ => .error (.valueError "\x27date and time\x27 field must be an integer")
      else .ok v

/-- Claim C5: the case analysis of the `SimpleIssueCustomField` value
normalization. Sibling key missing from the validated data gives a hard
`RuntimeError`; a `None` sibling passes the candidate through; with sibling
field-type id `"date and time"` and non-`None` candidate, an aware instant
passes through, an integer is read as epoch milliseconds
(`1704067200000` becomes the UTC instant `2024-01-01T00:00:00Z`) and any
other type raises `ValueError` with message
`'date and time' field must be an integer`; a `None` candidate and any other
field-type id pass through unchanged. -/
theorem c5_validate_youtrack_datetime_cases :
    (∀ v pcf, validate_youtrack_datetime v ⟨false, pcf⟩ = .error .runtimeError)
    ∧ (∀ v, validate_youtrack_datetime v ⟨true, .null⟩ = .ok v)
    ∧ (∀ ms, validate_youtrack_datetime (.dt ms) ⟨true, .idOf (some "date and time")⟩
        = .ok (.dt ms))
    ∧ (∀ n, validate_youtrack_datetime (.int n) ⟨true, .idOf (some "date and time")⟩
        = .ok (.dt n))
    ∧ (validate_youtrack_datetime (.int 1704067200000) ⟨true, .idOf (some "date and time")⟩
        = .ok (.dt (msOfCivil 2024 1 1 0 0 0))
      ∧ msOfCivil 2024 1 1 0 0 0 = 1704067200000)
    ∧ (∀ s, validate_youtrack_datetime (.str s) ⟨true, .idOf (some "date and time")⟩
        = .error (.valueError "\x27date and time\x27 field must be an integer"))
    ∧ (∀ x, validate_youtrack_datetime (.flt x) ⟨true, .idOf (some "date and time")⟩
        = .error (.valueError "\x27date and time\x27 field must be an integer"))
    ∧ (validate_youtrack_datetime .none ⟨true, .idOf (some "date and time")⟩ = .ok .none)
    ∧ (∀ v id, id ≠ some "date and time" →
        validate_youtrack_datetime v ⟨true, .idOf id⟩ = .ok v) := by
  refine ⟨fun v pcf => rfl, fun v => rfl, fun ms => rfl, fun n => rfl, ⟨by rfl, by rfl⟩,
    fun s => rfl, fun x => rfl, rfl, ?_⟩
  intro v id hid
  unfold validate_youtrack_datetime
  simp only [Bool.true_eq_false, if_false, reduceIte]
  rw [if_neg]
  rintro ⟨h1, _⟩
  exact hid h1

/-- Witness for C5 at the concrete inputs of the specification: raw value
`1704067200000` with sibling field-type id `"string"` stays an unchanged
integer. -/
theorem c5_validate_youtrack_datetime_cases_witness :
    (some "string" : Option String) ≠ some "date and time"
    ∧ validate_youtrack_datetime (.int 1704067200000) ⟨true, .idOf (some "string")⟩
        = .ok (.int 1704067200000) :=
  ⟨by decide, c5_validate_youtrack_datetime_cases.2.2.2.2.2.2.2.2 _ _ (by decide)⟩

/-- An HTTP response as observed by `AsyncClient._send_request`: a status
code and the (possibly empty) body bytes. -/
structure HResponse where
  status : Nat
  content : List Nat
deriving DecidableEq, Repr

/-- Errors surfaced by the transport shim: `YouTrackNotFound`,
`YouTrackUnauthorized` and the generic `YouTrackException` with its
message. -/
inductive YtErr where
  | notFound
  | unauthorized
  | api (msg : String)
deriving DecidableEq, Repr

/-- httpx `raise_for_status` succeeds exactly on 2xx responses. -/
def is2xx (s : Nat) : Bool := 200 ≤ s && s < 300

/-- The response handling of `AsyncClient._send_request`: 404 raises
`YouTrackNotFound`, 401 raises `YouTrackUnauthorized`, any other non-2xx
status raises `YouTrackException` with the method, URL and status code in the
message, a 2xx response with empty content returns `None`, and otherwise the
raw bytes are returned. -/
def send_request_handle (method url : String) (r : HResponse) :
    Except YtErr (Option (List Nat)) :=
  if r.status = 404 then .error .notFound
  else if r.status = 401 then .error .unauthorized
  else if !is2xx r.status then
    .error (.api ("Unexpected status code for " ++ method ++ " " ++ url ++ ": "
      ++ toString r.status ++ "."))
  else if r.content = [] then .ok none
  else .ok (some r.content)

/-- `AsyncClient._get_bytes`: a GET whose 2xx response has no body raises
`YouTrackException` mentioning the unexpected empty response. -/
def get_bytes_handle (url : String) (r : HResponse) : Except YtErr (List Nat) :=
  match send_request_handle "GET" url r with
  | .ok none => .error (.api ("Unexpected empty response from GET " ++ url))
  | .ok (some bs) => .ok bs
  | .error e => .error e

/-- `AsyncClient._post_bytes`: the POST analogue of `_get_bytes`. -/
def post_bytes_handle (url : String) (r : HResponse) : Except YtErr (List Nat) :=
  match send_request_handle "POST" url r with
  | .ok none => .error (.api ("Unexpected empty response from POST " ++ url))
  | .ok (some bs) => .ok bs
  | .error e => .error e

/-- Claim C8: status 404 raises NotFound, 401 raises Unauthorized, any other
non-2xx status raises the generic API error whose message carries the method,
URL and status code, a 2xx response with an empty body yields `None`, a 2xx
response with a body yields the raw bytes, and the bytes-returning GET / POST
helpers raise the generic API error about an unexpected empty response on a
bodyless 2xx. -/
theorem c8_error_mapping :
    (∀ m u c, send_request_handle m u ⟨404, c⟩ = .error .notFound)
    ∧ (∀ m u c, send_request_handle m u ⟨401, c⟩ = .error .unauthorized)
    ∧ (∀ m u c s, is2xx s = false → s ≠ 404 → s ≠ 401 →
        send_request_handle m u ⟨s, c⟩
          = .error (.api ("Unexpected status code for " ++ m ++ " " ++ u ++ ": "
              ++ toString s ++ ".")))
    ∧ (∀ m u s, is2xx s = true → send_request_handle m u ⟨s, []⟩ = .ok none)
    ∧ (∀ m u s c, is2xx s = true → c ≠ [] → send_request_handle m u ⟨s, c⟩ = .ok (some c))
    ∧ (∀ u s, is2xx s = true →
        get_bytes_handle u ⟨s, []⟩
          = .error (.api ("Unexpected empty response from GET " ++ u)))
    ∧ (∀ u s, is2xx s = true →
        post_bytes_handle u ⟨s, []⟩
          = .error (.api ("Unexpected empty response from POST " ++ u))) := by
  have h404 : ∀ m u c, send_request_handle m u ⟨404, c⟩ = .error .notFound := by
    intro m u c; rfl
  have h401 : ∀ m u c, send_request_handle m u ⟨401, c⟩ = .error .unauthorized := by
    intro m u c; rfl
  have hother : ∀ m u c s, is2xx s = false → s ≠ 404 → s ≠ 401 →
      send_request_handle m u ⟨s, c⟩
        = .error (.api ("Unexpected status code for " ++ m ++ " " ++ u ++ ": "
            ++ toString s ++ ".")) := by
    intro m u c s h2 h4 h1
    unfold send_request_handle
    rw [if_neg h4, if_neg h1, if_pos (by simp [h2])]
  have hempty : ∀ m u s, is2xx s = true → send_request_handle m u ⟨s, []⟩ = .ok none := by
    intro m u s h2
    have h4 : s ≠ 404 := by intro h; rw [h] at h2; simp [is2xx] at h2
    have h1 : s ≠ 401 := by intro h; rw [h] at h2; simp [is2xx] at h2
    unfold send_request_handle
    rw [if_neg h4, if_neg h1, if_neg (by simp [h2]), if_pos rfl]
  have hbody : ∀ m u s c, is2xx s = true → c ≠ [] →
      send_request_handle m u ⟨s, c⟩ = .ok (some c) := by
    intro m u s c h2 hc
    have h4 : s ≠ 404 := by intro h; rw [h] at h2; simp [is2xx] at h2
    have h1 : s ≠ 401 := by intro h; rw [h] at h2; simp [is2xx] at h2
    unfold send_request_handle
    rw [if_neg h4, if_neg h1, if_neg (by simp [h2]), if_neg hc]
  refine ⟨h404, h401, hother, hempty, hbody, ?_, ?_⟩
  · intro u s h2
    unfold get_bytes_handle
    rw [hempty "GET" u s h2]
  · intro u s h2
    unfold post_bytes_handle
    rw [hempty "POST" u s h2]

/-- Witness for C8: concrete statuses 404, 401, 500, and a 204 with no body
on a bytes-returning GET. -/
theorem c8_error_mapping_witness :
    send_request_handle "GET" "/api/issues" ⟨404, []⟩ = .error .notFound
    ∧ send_request_handle "GET" "/api/issues" ⟨401, []⟩ = .error .unauthorized
    ∧ (is2xx 500 = false
      ∧ send_request_handle "POST" "/api/issues" ⟨500, [1]⟩
          = .error (.api ("Unexpected status code for POST /api/issues: "
              ++ toString 500 ++ ".")))
    ∧ (is2xx 204 = true
      ∧ get_bytes_handle "/api/att" ⟨204, []⟩
          = .error (.api ("Unexpected empty response from GET /api/att"))) :=
  ⟨c8_error_mapping.1 _ _ _, c8_error_mapping.2.1 _ _ _,
    ⟨by decide, c8_error_mapping.2.2.1 _ _ _ 500 (by decide) (by decide) (by decide)⟩,
    ⟨by decide, c8_error_mapping.2.2.2.2.2.1 _ 204 (by decide)⟩⟩

/-- The default of a pydantic field in `entities.py`: either the field is
required (no default — only the `value: Sequence[...]` fields of the
multi-valued custom fields), or it defaults to `None` (every `Optional`
field), or it defaults to a literal string (the `$type` discriminators). -/
inductive Dflt where
  | required
  | none
  | tag (t : String)
deriving DecidableEq, Repr

mutual
/-- The semantic type of an entity attribute, as declared in `entities.py`:
primitive scalars, `AwareDatetime`, `YouTrackDate`, a `Literal[...]` over
string tags, a nested model, a sequence, a discriminated union of models, or
the special `SimpleIssueCustomField.value` union
(`Optional[YouTrackDateTime | StrictStr | StrictInt | StrictFloat]`). -/
inductive Ty where
  | str
  | int
  | bool
  | dtime
  | ydate
  | lit (tags : List String)
  | ent (m : Mdl)
  | seq (t : Ty)
  | union (ms : Mdls)
  | simpleValue
deriving DecidableEq, Repr

/-- A pydantic model: its field descriptors in declaration order. -/
inductive Mdl where
  | mk (fields : Fds)
deriving DecidableEq, Repr

/-- Field descriptors: python name, wire key (the alias if declared, else the
name), type, and default. -/
inductive Fds where
  | nil
  | cons (name wire : String) (ty : Ty) (dflt : Dflt) (rest : Fds)
deriving DecidableEq, Repr

/-- A list of models (the members of a union type). -/
inductive Mdls where
  | nil
  | cons (m : Mdl) (rest : Mdls)
deriving DecidableEq, Repr
end

/-- A field tree of `model_to_field_names`: a mapping from wire field name to
its sub-tree, in first-encounter order (a dict of dicts in the source). -/
inductive FEntries where
  | nil
  | cons (k : String) (sub : FEntries) (rest : FEntries)
deriving DecidableEq, Repr

/-- Lookup of a field name in a field tree. -/
def ftLookup (k : String) : FEntries → Option FEntries
  | .nil => none
  | .cons k' sub rest => if k' = k then some sub else ftLookup k rest

/-- Whether a field name occurs in a field tree. -/
def ftHas (k : String) (a : FEntries) : Bool :=
  (ftLookup k a).isSome

/-- In-place replacement of the sub-tree of an existing field name. -/
def ftSet (k : String) (v : FEntries) : FEntries → FEntries
  | .nil => .nil
  | .cons k' s rest => if k' = k then .cons k' v rest else .cons k' s (ftSet k v rest)

/-- Appending a fresh field name at the end. -/
def ftAppend : FEntries → String → FEntries → FEntries
  | .nil, k, v => .cons k v .nil
  | .cons k' s rest, k, v => .cons k' s (ftAppend rest k v)

/-- The field names of a tree, in order. -/
def ftKeys : FEntries → List String
  | .nil => []
  | .cons k _ rest => k :: ftKeys rest

/-- `deep_update` specialized to field trees (dicts all of whose values are
dicts): merge the entries of `b` into `a` in order, merging sub-trees
recursively on a name collision and appending new names at the end. On this
shape the type-identity check of `deep_update` always passes and no error can
arise; `mergeF_models_deep_update` below proves this specialization exact. -/
def mergeF (a : FEntries) : FEntries → FEntries
  | .nil => a
  | .cons k sub rest =>
    match ftLookup k a with
    | Option.none => mergeF (ftAppend a k sub) rest
    | Option.some s' => mergeF (ftSet k (mergeF s' sub) a) rest

mutual
/-- `type_to_fields` of `model_to_field_names`: a `$ref` to a model recurses
into that model, an array recurses into its item type, a union
(`anyOf` / `allOf` / `oneOf`) deep-merges the trees of its members, and
every primitive type contributes an empty tree. An `Optional[T]` field is
`anyOf [T, null]` in the schema; the `null` member contributes the empty
tree, so the embedding uses `T` directly. -/
def type_to_fields : Ty → FEntries
  | .ent m => model_to_fields m
  | .seq t => type_to_fields t
  | .union ms => union_to_fields_from .nil ms
  | .str => .nil
  | .int => .nil
  | .bool => .nil
  | .dtime => .nil
  | .ydate => .nil
  | .lit _ => .nil
  | .simpleValue => .nil
termination_by structural t => t

/-- `deep_update({}, *map(type_to_fields, sub_types))`, as a left fold with
explicit accumulator. -/
def union_to_fields_from (acc : FEntries) : Mdls → FEntries
  | .nil => acc
  | .cons m rest => union_to_fields_from (mergeF acc (model_to_fields m)) rest
termination_by structural ms => ms

/-- `model_to_fields`: one entry per declared field, keyed by the wire name
(the schema property name is the validation alias), with the sub-tree of the
field type. -/
def model_to_fields : Mdl → FEntries
  | .mk fds => fields_to_entries fds
termination_by structural m => m

/-- The entries of a model schema, in declaration order. -/
def fields_to_entries : Fds → FEntries
  | .nil => .nil
  | .cons _ wire ty _ rest => .cons wire (type_to_fields ty) (fields_to_entries rest)
termination_by structural fds => fds
end

/-- `fields_to_csv`: comma-join the entries, rendering a field as `name` when
its sub-tree is empty and `name(sub)` otherwise. -/
def fields_to_csv : FEntries → String
  | .nil => ""
  | .cons k sub rest =>
    let s := fields_to_csv sub
    let e := if s = "" then k else k ++ "(" ++ s ++ ")"
    match rest with
    | .nil => e
    | .cons k2 sub2 rest2 => e ++ "," ++ fields_to_csv (.cons k2 sub2 rest2)

/-- `helpers.model_to_field_names`: resolve the input to its list of union
members (a plain model is the singleton list), deep-merge their field trees
left to right starting from the empty dict, and serialize; an empty result
becomes `None`. -/
def model_to_field_names (ms : Mdls) : Option String :=
  let csv := fields_to_csv (union_to_fields_from .nil ms)
  if csv = "" then none else some csv

/-- Wire encoding of a field tree: a dict all of whose values are dicts. -/
def ftToWire : FEntries → WObj
  | .nil => .nil
  | .cons k sub rest => .cons k (.obj (ftToWire sub)) (ftToWire rest)

/-- Lookup commutes with the wire encoding of a field tree. -/
theorem ftToWire_lookup (k : String) (a : FEntries) :
    lookupW k (ftToWire a) = (ftLookup k a).map (fun s => .obj (ftToWire s)) := by
  induction a with
  | nil => rfl
  | cons k' sub rest ihsub ihrest =>
    rw [ftToWire, lookupW, ftLookup]
    by_cases h : k' = k
    · rw [if_pos h, if_pos h]
      rfl
    · rw [if_neg h, if_neg h, ihrest]

/-- Appending commutes with the wire encoding of a field tree. -/
theorem ftToWire_append (a : FEntries) (k : String) (v : FEntries) :
    ftToWire (ftAppend a k v) = appendW (ftToWire a) k (.obj (ftToWire v)) := by
  induction a with
  | nil => rfl
  | cons k' s rest ihs ihrest =>
    rw [ftAppend, ftToWire, ftToWire, appendW, ihrest]

/-- Replacement commutes with the wire encoding of a field tree. -/
theorem ftToWire_set (a : FEntries) (k : String) (v : FEntries) :
    ftToWire (ftSet k v a) = setW k (.obj (ftToWire v)) (ftToWire a) := by
  induction a with
  | nil => rfl
  | cons k' s rest ihs ihrest =>
    rw [ftSet, ftToWire, setW]
    by_cases h : k' = k
    · rw [if_pos h, if_pos h, ftToWire]
    · rw [if_neg h, if_neg h, ftToWire, ihrest]

/-- The field-tree merge is exactly `deep_update` on tree-shaped dicts: on
dicts all of whose values are (recursively) dicts, `deep_update` cannot fail
and computes `mergeF`. -/
theorem mergeF_models_deep_update (a b : FEntries) :
    deep_update_pass (ftToWire a) (ftToWire b) = .ok (ftToWire (mergeF a b)) := by
  match b with
  | .nil => rfl
  | .cons k sub rest =>
    rw [ftToWire, mergeF, deep_update_pass]
    have hu : updateOne (ftToWire a) k (.obj (ftToWire sub)) =
        match ftLookup k a with
        | Option.none => .ok (ftToWire (ftAppend a k sub))
        | Option.some s' => .ok (ftToWire (ftSet k (mergeF s' sub) a)) := by
      rw [updateOne, ftToWire_lookup k a]
      cases hl : ftLookup k a with
      | none =>
        rw [ftToWire_append]
        rfl
      | some s' =>
        show (deep_update_pass (ftToWire s') (ftToWire sub)).map
            (fun m => setW k (.obj m) (ftToWire a))
          = .ok (ftToWire (ftSet k (mergeF s' sub) a))
        rw [mergeF_models_deep_update s' sub, ftToWire_set]
        rfl
    rw [hu]
    cases hl : ftLookup k a with
    | none =>
      show deep_update_pass _ _ = _
      rw [mergeF_models_deep_update (ftAppend a k sub) rest]
    | some s' =>
      show deep_update_pass _ _ = _
      rw [mergeF_models_deep_update (ftSet k (mergeF s' sub) a) rest]
termination_by structural b

/-- Replacing an existing sub-tree does not change the key list. -/
theorem ftKeys_ftSet (k : String) (v a : FEntries) : ftKeys (ftSet k v a) = ftKeys a := by
  induction a with
  | nil => rfl
  | cons k' s rest ihs ihrest =>
    rw [ftSet]
    by_cases h : k' = k
    · rw [if_pos h, ftKeys, ftKeys]
    · rw [if_neg h, ftKeys, ftKeys, ihrest]

/-- Appending a fresh key appends it to the key list. -/
theorem ftKeys_ftAppend (a : FEntries) (k : String) (v : FEntries) :
    ftKeys (ftAppend a k v) = ftKeys a ++ [k] := by
  induction a with
  | nil => rfl
  | cons k' s rest ihs ihrest =>
    rw [ftAppend, ftKeys, ftKeys, ihrest]
    rfl

/-- Replacing an existing sub-tree does not change key membership. -/
theorem ftHas_ftSet (x k : String) (v a : FEntries) : ftHas x (ftSet k v a) = ftHas x a := by
  induction a with
  | nil => rfl
  | cons k' s rest ihs ihrest =>
    rw [ftSet]
    by_cases h : k' = k
    · rw [if_pos h]
      unfold ftHas ftLookup
      by_cases h2 : k' = x
      · rw [if_pos h2, if_pos h2]
        rfl
      · rw [if_neg h2, if_neg h2]
    · rw [if_neg h]
      unfold ftHas ftLookup
      by_cases h2 : k' = x
      · rw [if_pos h2, if_pos h2]
      · rw [if_neg h2, if_neg h2]
        exact ihrest

/-- Key membership after an append. -/
theorem ftHas_ftAppend (x : String) (a : FEntries) (k : String) (v : FEntries) :
    ftHas x (ftAppend a k v) = (ftHas x a || decide (k = x)) := by
  induction a with
  | nil =>
    unfold ftAppend ftHas ftLookup
    by_cases h : k = x
    · rw [if_pos h]
      simp [h]
    · rw [if_neg h]
      simp [h, ftLookup]
  | cons k' s rest ihs ihrest =>
    rw [ftAppend]
    unfold ftHas ftLookup
    by_cases h2 : k' = x
    · rw [if_pos h2, if_pos h2]
      simp
    · rw [if_neg h2, if_neg h2]
      exact ihrest

/-- A present key reports `ftHas`. -/
theorem ftHas_of_lookup {k : String} {a s : FEntries} (h : ftLookup k a = some s) :
    ftHas k a = true := by
  unfold ftHas
  rw [h]
  rfl

/-- An absent key reports no `ftHas`. -/
theorem ftHas_of_lookup_none {k : String} {a : FEntries} (h : ftLookup k a = none) :
    ftHas k a = false := by
  unfold ftHas
  rw [h]
  rfl

/-- The key list of a field-tree merge: the destination keys, followed by the
source keys not already present, in first-encounter order. -/
theorem mergeF_keys (a b : FEntries) (hb : (ftKeys b).Nodup) :
    ftKeys (mergeF a b) = ftKeys a ++ (ftKeys b).filter (fun k => !ftHas k a) := by
  match b with
  | .nil => simp [mergeF, ftKeys]
  | .cons k sub rest =>
    rw [ftKeys, List.nodup_cons] at hb
    obtain ⟨hk, hrest⟩ := hb
    rw [mergeF, ftKeys, List.filter_cons]
    cases hl : ftLookup k a with
    | some s' =>
      rw [mergeF_keys (ftSet k (mergeF s' sub) a) rest hrest]
      rw [ftKeys_ftSet]
      rw [ftHas_of_lookup hl]
      simp only [Bool.not_true, Bool.false_eq_true, if_false, reduceIte]
      congr 1
      apply List.filter_congr
      intro x _
      rw [ftHas_ftSet]
    | none =>
      rw [mergeF_keys (ftAppend a k sub) rest hrest]
      rw [ftKeys_ftAppend]
      rw [ftHas_of_lookup_none hl]
      simp only [Bool.not_false, if_true, reduceIte]
      rw [List.append_assoc]
      congr 1
      rw [List.singleton_append]
      congr 1
      apply List.filter_congr
      intro x hx
      rw [ftHas_ftAppend]
      have : k ≠ x := fun h => hk (h ▸ hx)
      simp [this]
termination_by structural b

/-- Variant A of the specification example: fields `x` and `y(a,b)`. -/
def projVariantA : Mdl :=
  .mk (.cons "x" "x" .str .none
    (.cons "y" "y"
      (.ent (.mk (.cons "a" "a" .str .none (.cons "b" "b" .str .none .nil)))) .none .nil))

/-- Variant B of the specification example: fields `y(c)` and `z`. -/
def projVariantB : Mdl :=
  .mk (.cons "y" "y" (.ent (.mk (.cons "c" "c" .str .none .nil))) .none
    (.cons "z" "z" .str .none .nil))

/-- Claim C1: the projection engine merges duplicate field names reachable
through different union branches recursively, preserving first-encounter
order: the union of variant A (fields `x`, `y(a,b)`) and variant B (fields
`y(c)`, `z`) projects to exactly `x,y(a,b,c),z`. In general the merged tree
lists the first branch keys followed by the unseen keys of the second branch,
and the tree merge is exactly `deep_update` on tree-shaped dicts. -/
theorem c1_projection_union_merge :
    model_to_field_names (.cons projVariantA (.cons projVariantB .nil))
      = some "x,y(a,b,c),z"
    ∧ (∀ a b : FEntries, (ftKeys b).Nodup →
        ftKeys (mergeF a b) = ftKeys a ++ (ftKeys b).filter (fun k => !ftHas k a))
    ∧ (∀ a b : FEntries,
        deep_update_pass (ftToWire a) (ftToWire b) = .ok (ftToWire (mergeF a b))) :=
  ⟨by rfl, mergeF_keys, mergeF_models_deep_update⟩

/-- Witness for C1: order-preserving merged key list at a concrete pair of
trees. -/
theorem c1_projection_union_merge_witness :
    (ftKeys (.cons "y" .nil (.cons "z" .nil .nil))).Nodup
    ∧ ftKeys (mergeF (.cons "x" .nil (.cons "y" .nil .nil))
          (.cons "y" .nil (.cons "z" .nil .nil)))
      = ftKeys (.cons "x" .nil (.cons "y" .nil .nil))
        ++ (ftKeys (.cons "y" .nil (.cons "z" .nil .nil))).filter
            (fun k => !ftHas k (.cons "x" .nil (.cons "y" .nil .nil))) :=
  ⟨by decide, c1_projection_union_merge.2.1 _ _ (by decide)⟩

mutual
/-- A validated pydantic field value: `None`, scalars (with `AwareDatetime`
as epoch milliseconds and `date` as a day ordinal), a nested entity, or a
sequence. -/
inductive Val where
  | none
  | bool (b : Bool)
  | int (n : Int)
  | flt (x : FloatRep)
  | str (s : String)
  | dt (ms : Int)
  | date (d : Int)
  | ent (e : Ent)
  | seq (elems : VList)
deriving DecidableEq, Repr

/-- A list of validated values. -/
inductive VList where
  | nil
  | cons (v : Val) (rest : VList)
deriving DecidableEq, Repr

/-- A constructed entity instance: its fields in declaration order. -/
inductive Ent where
  | mk (fields : EFs)
deriving DecidableEq, Repr

/-- The fields of an instance: python name, wire key, stored value (defaults
already applied), and whether the field is in `__pydantic_fields_set__`
(i.e. was explicitly supplied rather than defaulted). -/
inductive EFs where
  | nil
  | cons (name wire : String) (value : Val) (isSet : Bool) (rest : EFs)
deriving DecidableEq, Repr
end

/-- The field list of an entity. -/
def Ent.fields : Ent → EFs
  | .mk fs => fs

/-- Appending a field at the end of a field list. -/
def efsSnoc : EFs → String → String → Val → Bool → EFs
  | .nil, n, w, v, s => .cons n w v s .nil
  | .cons n' w' v' s' rest, n, w, v, s => .cons n' w' v' s' (efsSnoc rest n w v s)

/-- Attribute access by python name: the value of the first field named `n`. -/
def efsLookupName (n : String) : EFs → Option Val
  | .nil => none
  | .cons n' _ v _ rest => if n' = n then some v else efsLookupName n rest

/-- Whether some field uses the wire key `k`. -/
def efsHasWire (k : String) : EFs → Bool
  | .nil => false
  | .cons _ wire _ _ rest => wire == k || efsHasWire k rest

/-- The wire keys of a field list, in order. -/
def efsWires : EFs → List String
  | .nil => []
  | .cons _ wire _ _ rest => wire :: efsWires rest

/-- The discriminator of an instance: the string value stored under the wire
key `$type`. -/
def efsTag : EFs → Option String
  | .nil => none
  | .cons _ wire v _ rest =>
    if wire = "$type" then
      match v with
      | .str t => some t
      | _ => none
    else efsTag rest

/-- The discriminator of an entity. -/
def entTag (e : Ent) : Option String := efsTag e.fields

mutual
/-- `model_dump(by_alias=True, exclude_unset=True)` of a value, in python
mode: `datetime` / `date` objects stay objects, nested entities dump
recursively with the same exclusion. -/
def dumpValU : Val → Wire
  | .none => .null
  | .bool b => .bool b
  | .int n => .int n
  | .flt x => .flt x
  | .str s => .str s
  | .dt ms => .dt ms
  | .date d => .date d
  | .ent e => .obj (dumpEntU e)
  | .seq vs => .arr (dumpListU vs)
termination_by structural v => v

/-- `exclude_unset` dump of sequence elements. -/
def dumpListU : VList → WList
  | .nil => .nil
  | .cons v rest => .cons (dumpValU v) (dumpListU rest)
termination_by structural vs => vs

/-- `exclude_unset` dump of an entity: exactly the explicitly-set fields,
keyed by wire name. -/
def dumpEntU : Ent → WObj
  | .mk fs => dumpFieldsU fs
termination_by structural e => e

/-- `exclude_unset` dump of a field list. -/
def dumpFieldsU : EFs → WObj
  | .nil => .nil
  | .cons _ wire v s rest =>
    if s then .cons wire (dumpValU v) (dumpFieldsU rest) else dumpFieldsU rest
termination_by structural fs => fs
end

mutual
/-- `model_dump(by_alias=True, exclude_none=True)` of a value. -/
def dumpValN : Val → Wire
  | .none => .null
  | .bool b => .bool b
  | .int n => .int n
  | .flt x => .flt x
  | .str s => .str s
  | .dt ms => .dt ms
  | .date d => .date d
  | .ent e => .obj (dumpEntN e)
  | .seq vs => .arr (dumpListN vs)
termination_by structural v => v

/-- `exclude_none` dump of sequence elements. -/
def dumpListN : VList → WList
  | .nil => .nil
  | .cons v rest => .cons (dumpValN v) (dumpListN rest)
termination_by structural vs => vs

/-- `exclude_none` dump of an entity: exactly the fields whose stored value
is not `None`, including defaulted ones. -/
def dumpEntN : Ent → WObj
  | .mk fs => dumpFieldsN fs
termination_by structural e => e

/-- `exclude_none` dump of a field list. -/
def dumpFieldsN : EFs → WObj
  | .nil => .nil
  | .cons _ wire v _ rest =>
    match v with
    | .none => dumpFieldsN rest
    | v => .cons wire (dumpValN v) (dumpFieldsN rest)
termination_by structural fs => fs
end

/-- `helpers.obj_to_dict`: `None` short-circuits to `None`; otherwise the
`exclude_none` dump is deep-merged on top of the `exclude_unset` dump, so
that explicitly-set `None` fields survive while defaulted fields (notably
the `$type` discriminator) still appear. -/
def obj_to_dict : Option Ent → Except PyErr (Option Wire)
  | Option.none => .ok Option.none
  | Option.some e =>
    (deep_update_pass (dumpEntU e) (dumpEntN e)).map (fun w => some (.obj w))

/-- Length of a value list (Python `len`). -/
def vlistLength : VList → Nat
  | .nil => 0
  | .cons _ rest => 1 + vlistLength rest

/-- Python `filter` over a value list. -/
def vlistFilter (p : Val → Bool) : VList → VList
  | .nil => .nil
  | .cons v rest => if p v then .cons v (vlistFilter p rest) else vlistFilter p rest

/-- `helpers.get_single_value`: tuple unpacking `(value,) = values` succeeds
exactly on a one-element collection; otherwise the `ValueError` is re-raised
as `NonSingleValueError`. -/
def get_single_value : VList → Except PyErr Val
  | .cons v .nil => .ok v
  | _ => .error .nonSingleValue

/-- The `_filter_func` of `get_issue_custom_field`: `field.name == field_name`
(a `None` name compares unequal to any string). -/
def icfNameMatches (field_name : String) (v : Val) : Bool :=
  match v with
  | .ent e =>
    (match efsLookupName "name" e.fields with
     | some (.str s) => s == field_name
     | _ => false)
  | _ => false

/-- `issue.custom_fields if issue.custom_fields else []`: a `None` (or empty)
sequence becomes the empty list. -/
def issueCfs (issue : Ent) : VList :=
  match efsLookupName "custom_fields" issue.fields with
  | some (.seq vs) => vs
  | _ => .nil

/-- `helpers.get_issue_custom_field`. -/
def get_issue_custom_field (issue : Ent) (field_name : String) : Except PyErr Val :=
  get_single_value (vlistFilter (icfNameMatches field_name) (issueCfs issue))

/-- A singleton filter result satisfies the filter predicate. -/
theorem vlistFilter_singleton_sound (p : Val → Bool) (vs : VList) (v : Val)
    (h : vlistFilter p vs = .cons v .nil) : p v = true := by
  match vs with
  | .nil => exact absurd h (by simp [vlistFilter])
  | .cons x rest =>
    rw [vlistFilter] at h
    by_cases hp : p x
    · rw [if_pos hp] at h
      injection h with h1 h2
      rw [← h1]
      exact hp
    · rw [if_neg hp] at h
      exact vlistFilter_singleton_sound p rest v h
termination_by structural vs

/-- Claim C9: looking up an issue custom field by name returns the unique
field whose `name` equals the given name when exactly one matches, and raises
`NonSingleValueError` when zero or more than one match; `get_single_value`
itself succeeds exactly on singleton collections. -/
theorem c9_single_value_lookup :
    (∀ v : Val, get_single_value (.cons v .nil) = .ok v)
    ∧ (∀ vs : VList, vlistLength vs ≠ 1 → get_single_value vs = .error .nonSingleValue)
    ∧ (∀ (issue : Ent) (fn : String) (v : Val),
        vlistFilter (icfNameMatches fn) (issueCfs issue) = .cons v .nil →
        get_issue_custom_field issue fn = .ok v ∧ icfNameMatches fn v = true)
    ∧ (∀ (issue : Ent) (fn : String),
        vlistLength (vlistFilter (icfNameMatches fn) (issueCfs issue)) ≠ 1 →
        get_issue_custom_field issue fn = .error .nonSingleValue) := by
  have hlen : ∀ vs : VList, vlistLength vs ≠ 1 →
      get_single_value vs = .error .nonSingleValue := by
    intro vs h
    match vs with
    | .nil => rfl
    | .cons v .nil => exact absurd rfl h
    | .cons v (.cons v2 rest) => rfl
  refine ⟨fun v => rfl, hlen, ?_, ?_⟩
  · intro issue fn v h
    refine ⟨?_, vlistFilter_singleton_sound _ _ _ h⟩
    unfold get_issue_custom_field
    rw [h]
    rfl
  · intro issue fn h
    unfold get_issue_custom_field
    exact hlen _ h

/-- Witness for C9: an issue with exactly one custom field named `State`, and
a lookup for an absent name. -/
theorem c9_single_value_lookup_witness :
    vlistFilter (icfNameMatches "State")
        (issueCfs (.mk (.cons "custom_fields" "customFields"
          (.seq (.cons (.ent (.mk (.cons "name" "name" (.str "State") true .nil)))
            .nil)) true .nil)))
      = .cons (.ent (.mk (.cons "name" "name" (.str "State") true .nil))) .nil
    ∧ get_issue_custom_field
        (.mk (.cons "custom_fields" "customFields"
          (.seq (.cons (.ent (.mk (.cons "name" "name" (.str "State") true .nil)))
            .nil)) true .nil)) "State"
      = .ok (.ent (.mk (.cons "name" "name" (.str "State") true .nil)))
    ∧ vlistLength (vlistFilter (icfNameMatches "Unknown")
        (issueCfs (.mk (.cons "custom_fields" "customFields"
          (.seq (.cons (.ent (.mk (.cons "name" "name" (.str "State") true .nil)))
            .nil)) true .nil)))) ≠ 1
    ∧ get_issue_custom_field
        (.mk (.cons "custom_fields" "customFields"
          (.seq (.cons (.ent (.mk (.cons "name" "name" (.str "State") true .nil)))
            .nil)) true .nil)) "Unknown"
      = .error .nonSingleValue :=
  ⟨by rfl,
    (c9_single_value_lookup.2.2.1 _ "State" _ (by rfl)).1,
    by decide,
    c9_single_value_lookup.2.2.2 _ "Unknown" (by decide)⟩

/-- The stored value a field takes when it is not supplied at construction. -/
def defaultVal : Dflt → Val
  | .required => .none
  | .none => .none
  | .tag t => .str t

/-- Whether an unset field carries exactly its declared default. -/
def dfltMatches (dflt : Dflt) (v : Val) : Bool :=
  match dflt, v with
  | .none, .none => true
  | .tag t, .str t' => t == t'
  | _, _ => false

/-- Whether a field declared with this default accepts an explicit `None`
(in `entities.py`, the `Optional` fields are exactly those defaulting to
`None`). -/
def isOptionalDflt : Dflt → Bool
  | .none => true
  | _ => false

/-- Attribute access on a validated value: `getattr(v, n)` yields a value
only when `v` is a model instance carrying the attribute. -/
def entField (n : String) : Val → Option Val
  | .ent e => efsLookupName n e.fields
  | _ => none

/-- The `.id` step of the sibling navigation: an `id` of `None` (or any
non-string) reads as no field-type id, and a missing attribute (the
containing value was `None` or not a model) raises `AttributeError`. -/
def pcfNav3 : Option Val → PcfView
  | some (.str s) => .idOf (some s)
  | some _ => .idOf none
  | none => .crash

/-- The `.field_type` step of the sibling navigation. -/
def pcfNav2 : Option Val → PcfView
  | some ftv => pcfNav3 (entField "id" ftv)
  | none => .crash

/-- The `.field` step of the sibling navigation. -/
def pcfNav1 : Option Val → PcfView
  | some cfv => pcfNav2 (entField "field_type" cfv)
  | none => .crash

/-- What `validate_youtrack_datetime` sees of an already-validated sibling
value when navigating `project_custom_field.field.field_type.id`. -/
def pcfViewOf (v : Val) : PcfView :=
  match v with
  | .none => .null
  | v => pcfNav1 (entField "field" v)

/-- The `ValidationInfo` observed while validating a field, reconstructed
from the fields already validated (pydantic validates fields in declaration
order and `info.data` holds the earlier ones, defaults included). -/
def infoOf (acc : EFs) : VdtInfo :=
  match efsLookupName "project_custom_field" acc with
  | some v => ⟨true, pcfViewOf v⟩
  | none => ⟨false, .null⟩

/-- The wire scalars admissible as candidates of the
`SimpleIssueCustomField.value` union. -/
def toSimpleVal : Wire → Option SimpleVal
  | .null => some .none
  | .dt ms => some (.dt ms)
  | .str s => some (.str s)
  | .int n => some (.int n)
  | .flt x => some (.flt x)
  | _ => none

/-- Back from a union candidate to a stored value. -/
def valOfSimple : SimpleVal → Val
  | .none => .none
  | .dt ms => .dt ms
  | .str s => .str s
  | .int n => .int n
  | .flt x => .flt x

/-- Validation of the `SimpleIssueCustomField.value` union
`Optional[YouTrackDateTime | StrictStr | StrictInt | StrictFloat]` in smart
mode: the `YouTrackDateTime` member runs `validate_youtrack_datetime` first;
its `RuntimeError` / `AttributeError` escape the whole validation, while its
`ValueError` merely fails that member; a member result that is an aware
instant satisfies strict `AwareDatetime`, any other result falls through to
`StrictStr` / `StrictInt` / `StrictFloat` / `None`, which accept the raw
candidate unchanged. -/
def decodeSimpleValue (info : VdtInfo) (w : Wire) : Except PyErr Val :=
  match toSimpleVal w with
  | none => .error .unionNoMatch
  | some c =>
    match validate_youtrack_datetime c info with
    | .error .runtimeError => .error .runtimeError
    | .error .attributeError => .error .attributeError
    | .error _ => .ok (valOfSimple c)
    | .ok (.dt ms) => .ok (.dt ms)
    | .ok _ => .ok (valOfSimple c)

/-- Syntactic equality of scalar stored values (the only shapes a
`SimpleIssueCustomField.value` can take). -/
def valScalarEq : Val → Val → Bool
  | .none, .none => true
  | .dt a, .dt b => a == b
  | .str a, .str b => a == b
  | .int a, .int b => a == b
  | .flt a, .flt b => a == b
  | _, _ => false

/-- A stored `SimpleIssueCustomField.value` is constructible in the given
sibling context exactly when re-validating its own dump returns it
unchanged: the construction validator maps every accepted candidate into
this fixed-point set. -/
def conformsSimple (info : VdtInfo) (v : Val) : Bool :=
  match decodeSimpleValue info (dumpValU v) with
  | .ok v' => valScalarEq v v'
  | .error _ => false

/-- The `Literal` tags of the field with wire key `$type`, for
discriminated-union dispatch. -/
def fdsTags : Fds → List String
  | .nil => []
  | .cons _ wire ty _ rest =>
    if wire = "$type" then
      match ty with
      | .lit tags => tags
      | _ => []
    else fdsTags rest

/-- The discriminator tags a model declares. -/
def mdlTags : Mdl → List String
  | .mk fds => fdsTags fds

/-- The first union member whose declared discriminator matches the tag. -/
def findVariant (t : String) : Mdls → Option Mdl
  | .nil => none
  | .cons m rest => if (mdlTags m).contains t then some m else findVariant t rest

mutual
/-- The instance is a possible output of constructing the model through the
public (validated) pydantic constructor: fields align with the descriptors,
unset fields carry their declared default, set fields carry a value the
declared type validates to. -/
def conformsEnt (m : Mdl) (e : Ent) : Bool :=
  match m, e with
  | .mk fds, .mk efs => conformsFds fds efs .nil
termination_by structural e

/-- Field-by-field conformance, carrying the already-checked prefix (the
`info.data` the validators of later fields can consult). -/
def conformsFds : Fds → EFs → EFs → Bool
  | .nil, .nil, _ => true
  | .cons n wi ty dflt frest, .cons n' wi' v s erest, acc =>
    n == n' && wi == wi' &&
    (if s then
      (if ty = .simpleValue then conformsSimple (infoOf acc) v
       else if v = .none then isOptionalDflt dflt
       else conformsVal ty v)
     else dfltMatches dflt v) &&
    conformsFds frest erest (efsSnoc acc n' wi' v s)
  | _, _, _ => false
termination_by structural _ efs _ => efs

/-- A set, non-`None` value validated by the declared type. -/
def conformsVal : Ty → Val → Bool
  | .str, .str _ => true
  | .int, .int _ => true
  | .bool, .bool _ => true
  | .dtime, .dt _ => true
  | .ydate, .date _ => true
  | .lit tags, .str t => tags.contains t
  | .ent m, .ent e => conformsEnt m e
  | .seq t, .seq vs => conformsList t vs
  | .union ms, .ent e =>
    (match entTag e with
     | some t =>
       (match findVariant t ms with
        | some m => conformsEnt m e
        | none => false)
     | none => false)
  | _, _ => false
termination_by structural _ v => v

/-- Element-wise conformance of a sequence value. -/
def conformsList : Ty → VList → Bool
  | _, .nil => true
  | t, .cons v rest => conformsVal t v && conformsList t rest
termination_by structural _ vs => vs
end


/-- The wire keys a model declares. -/
def fdsWires : Fds → List String
  | .nil => []
  | .cons _ wire _ _ rest => wire :: fdsWires rest

/-- The python names a model declares. -/
def fdsNames : Fds → List String
  | .nil => []
  | .cons name _ _ _ rest => name :: fdsNames rest

/-- Whether some descriptor uses the wire key `k`. -/
def fdsHasWire (k : String) : Fds → Bool
  | .nil => false
  | .cons _ wire _ _ rest => wire == k || fdsHasWire k rest

/-- No two descriptors share a wire key. -/
def fdsWiresNodup : Fds → Bool
  | .nil => true
  | .cons _ wire _ _ rest => !(fdsHasWire wire rest) && fdsWiresNodup rest

/-- A field that can be absent from a wire map (unset with default `None`)
must not have a python name that doubles as the wire key of a different
field, or the by-name population fallback could capture that other field.
(`IssueWorkItem` has the name/wire collision `type` / `work_item_type`, but
its `type` discriminator always appears on the wire, so it satisfies this.) -/
def nameSafe (name wire : String) : Fds → Bool
  | .nil => true
  | .cons _ wire' _ _ rest => (wire' != name || wire' == wire) && nameSafe name wire rest

/-- `nameSafe` for every optional field of the model. -/
def fdsNamesOk (all : Fds) : Fds → Bool
  | .nil => true
  | .cons name wire _ dflt rest =>
    (match dflt with
     | .none => nameSafe name wire all
     | _ => true) && fdsNamesOk all rest

/-- A sequence element type must itself be a model or a union of models (the
only shapes `entities.py` uses; merging dumps of scalar list elements would
crash `deep_update`). -/
def seqElemOk : Ty → Bool
  | .ent _ => true
  | .union _ => true
  | _ => false

/-- A tag default must be one of the declared literal tags. -/
def dfltOk (ty : Ty) (dflt : Dflt) : Bool :=
  match dflt with
  | .tag t =>
    (match ty with
     | .lit tags => tags.contains t
     | _ => false)
  | _ => true

/-- A union member must declare a `$type` discriminator with a literal tag
default, so the tag always appears on the wire. -/
def fdsTagFieldOk : Fds → Bool
  | .nil => false
  | .cons _ wire ty dflt rest =>
    if wire = "$type" then
      match ty, dflt with
      | .lit tags, .tag t => tags.contains t
      | _, _ => false
    else fdsTagFieldOk rest

/-- `fdsTagFieldOk` on a model. -/
def mdlTagFieldOk : Mdl → Bool
  | .mk fds => fdsTagFieldOk fds

mutual
/-- Well-formedness of a transcribed model: distinct wire keys, by-name
population safety, defaults consistent with literal types, sequence elements
that are models, and the same recursively. -/
def wfMdl : Mdl → Bool
  | .mk fds => fdsWiresNodup fds && fdsNamesOk fds fds && wfFds fds
termination_by structural m => m

/-- Well-formedness of the descriptors. -/
def wfFds : Fds → Bool
  | .nil => true
  | .cons _ _ ty dflt rest => wfTy ty && dfltOk ty dflt && wfFds rest
termination_by structural fds => fds

/-- Well-formedness of a field type. -/
def wfTy : Ty → Bool
  | .ent m => wfMdl m
  | .seq t => seqElemOk t && wfTy t
  | .union ms => wfMdls ms
  | _ => true
termination_by structural t => t

/-- Well-formedness of union members. -/
def wfMdls : Mdls → Bool
  | .nil => true
  | .cons m rest => wfMdl m && mdlTagFieldOk m && wfMdls rest
termination_by structural ms => ms
end

mutual
/-- Structural well-formedness of an instance: distinct wire keys at every
level and sequence elements that are entities (what the dual-pass merge of
`obj_to_dict` needs). -/
def wfEntS : Ent → Bool
  | .mk fs => efsWiresNodup fs && wfFieldsS fs
termination_by structural e => e

/-- Distinct wire keys of an instance field list. -/
def efsWiresNodup : EFs → Bool
  | .nil => true
  | .cons _ wire _ _ rest => !(efsHasWire wire rest) && efsWiresNodup rest
termination_by structural fs => fs

/-- Structural well-formedness of the field values. -/
def wfFieldsS : EFs → Bool
  | .nil => true
  | .cons _ _ v _ rest => wfValS v && wfFieldsS rest
termination_by structural fs => fs

/-- Structural well-formedness of a value. -/
def wfValS : Val → Bool
  | .ent e => wfEntS e
  | .seq vs => wfListS vs
  | _ => true
termination_by structural v => v

/-- Sequence elements are well-formed entities. -/
def wfListS : VList → Bool
  | .nil => true
  | .cons v rest =>
    (match v with
     | .ent e => wfEntS e
     | _ => false) && wfListS rest
termination_by structural vs => vs
end

mutual
/-- Pydantic `__eq__` on instances: same class and equal `__dict__`, i.e.
equal field names and values in order; `__pydantic_fields_set__` does not
participate. -/
def eqvEnt : Ent → Ent → Bool
  | .mk a, .mk b => eqvFields a b
termination_by structural e _ => e

/-- Field-wise value equality by python name. -/
def eqvFields : EFs → EFs → Bool
  | .nil, .nil => true
  | .cons n _ v _ r1, .cons n' _ v' _ r2 => n == n' && eqvVal v v' && eqvFields r1 r2
  | _, _ => false
termination_by structural a _ => a

/-- Value equality (Python `==` on the stored values). -/
def eqvVal : Val → Val → Bool
  | .none, .none => true
  | .bool a, .bool b => a == b
  | .int a, .int b => a == b
  | .flt a, .flt b => a == b
  | .str a, .str b => a == b
  | .dt a, .dt b => a == b
  | .date a, .date b => a == b
  | .ent a, .ent b => eqvEnt a b
  | .seq a, .seq b => eqvList a b
  | _, _ => false
termination_by structural a _ => a

/-- Element-wise value equality. -/
def eqvList : VList → VList → Bool
  | .nil, .nil => true
  | .cons v r, .cons v' r' => eqvVal v v' && eqvList r r'
  | _, _ => false
termination_by structural a _ => a
end

/-- A found union variant is sizewise below the member list (for the
termination of the decoder). -/
theorem findVariant_sizeOf (t : String) (ms : Mdls) (m : Mdl)
    (h : findVariant t ms = some m) : sizeOf m < sizeOf ms := by
  match ms with
  | .nil => exact absurd h (by simp [findVariant])
  | .cons m' rest =>
    rw [findVariant] at h
    by_cases hc : (mdlTags m').contains t
    · rw [if_pos hc] at h
      injection h with h1
      subst h1
      simp
      omega
    · rw [if_neg hc] at h
      have := findVariant_sizeOf t rest m h
      simp
      omega
termination_by structural ms

/-- Population of a field from a wire map: the validation alias is tried
first, then (`populate_by_name=True`) the python name. -/
def lookupAlias (wire name : String) (w : WObj) : Option Wire :=
  match lookupW wire w with
  | some wv => some wv
  | none => lookupW name w

/-- Discriminator extraction of a tagged union: the `type` field is
populated by alias `$type` or by name. -/
def tagLookup (kvs : WObj) : Option Wire := lookupAlias "$type" "type" kvs

/-- Every default descriptor has positive size (for the decoder measures). -/
theorem one_le_sizeOf_dflt (d : Dflt) : 1 ≤ sizeOf d := by
  cases d <;> simp_arith

/-- Every descriptor list has positive size (for the decoder measures). -/
theorem one_le_sizeOf_fds (fds : Fds) : 1 ≤ sizeOf fds := by
  cases fds <;> simp_arith

mutual
/-- Pydantic validation of a wire mapping against a model: fields populate
in declaration order, alias-first; a missing field takes its default or
fails when required; unknown wire keys are ignored. -/
def decodeModel (m : Mdl) (w : WObj) : Except PyErr Ent :=
  match m with
  | .mk fds => (decodeFields fds .nil w).map .mk
termination_by (sizeOf m, sizeOf w, 0)

/-- Populate a single field from its looked-up wire value: a found value is
validated and marks the field set; an absent one falls back to the default,
failing when the field is required. -/
def decodeFieldW (name wire : String) (ty : Ty) (dflt : Dflt) (acc : EFs) :
    Option Wire → Except PyErr EFs
  | some wv => (decodeVal ty dflt acc wv).map (fun v => efsSnoc acc name wire v true)
  | none =>
    match dflt with
    | .required => .error (.missingField wire)
    | .none => .ok (efsSnoc acc name wire .none false)
    | .tag t => .ok (efsSnoc acc name wire (.str t) false)
termination_by _ => (sizeOf ty + 1, 0, 0)

/-- One step of the field loop of `decodeModel`: populate a single field
from the wire map (validation alias first, then python name). -/
def decodeField (name wire : String) (ty : Ty) (dflt : Dflt) (acc : EFs)
    (w : WObj) : Except PyErr EFs :=
  decodeFieldW name wire ty dflt acc (lookupAlias wire name w)
termination_by (sizeOf ty + 2, 0, 0)

/-- The field loop of `decodeModel`, carrying the validated prefix
(`info.data`). -/
def decodeFields (fds : Fds) (acc : EFs) (w : WObj) : Except PyErr EFs :=
  match fds with
  | .nil => .ok acc
  | .cons name wire ty dflt rest =>
    match decodeField name wire ty dflt acc w with
    | .ok acc2 => decodeFields rest acc2 w
    | .error e => .error e
termination_by (sizeOf fds, sizeOf w, 1)
decreasing_by
  all_goals first
    | decreasing_tactic
    | (rename_i name2 wire2 ty2 dflt2 rest2
       have h1 := one_le_sizeOf_dflt dflt2
       have h2 := one_le_sizeOf_fds rest2
       decreasing_tactic)

/-- Validation of one field value: the `SimpleIssueCustomField` union
consults the already-validated siblings; otherwise wire `null` is accepted
exactly for `Optional` fields, and any other value validates by type. -/
def decodeVal (ty : Ty) (dflt : Dflt) (acc : EFs) (wv : Wire) : Except PyErr Val :=
  if ty = .simpleValue then decodeSimpleValue (infoOf acc) wv
  else if wv = .null then
    (if isOptionalDflt dflt then .ok .none else .error .invalidValue)
  else decodeTyVal ty wv
termination_by (sizeOf ty, sizeOf wv, 1)

/-- Validation of a non-`null` value against a declared type. Scalars accept
their own wire shape; `YouTrackDate` additionally accepts an aware instant at
midnight and an integer through the epoch-millisecond-minus-12-hours rule;
a `Literal` accepts its declared tags; nested models, sequences and unions
recurse. -/
def decodeTyVal (ty : Ty) (wv : Wire) : Except PyErr Val :=
  match ty, wv with
  | .str, .str s => .ok (.str s)
  | .int, .int n => .ok (.int n)
  | .bool, .bool b => .ok (.bool b)
  | .dtime, .dt ms => .ok (.dt ms)
  | .ydate, .date d => .ok (.date d)
  | .ydate, .dt ms =>
    if ms.emod 86400000 = 0 then .ok (.date (ms.ediv 86400000)) else .error .invalidValue
  | .ydate, .int n => (youtrack_date_decode_int n).map .date
  | .lit tags, .str t => if tags.contains t then .ok (.str t) else .error .invalidValue
  | .ent m, .obj kvs => (decodeModel m kvs).map .ent
  | .seq t, .arr ws => (decodeSeq t ws).map .seq
  | .union ms, .obj kvs => (decodeUnion ms kvs).map .ent
  | _, _ => .error .invalidValue
termination_by (sizeOf ty, sizeOf wv, 0)

/-- Element-wise validation of a sequence. -/
def decodeSeq (t : Ty) (ws : WList) : Except PyErr VList :=
  match ws with
  | .nil => .ok .nil
  | .cons w rest =>
    match decodeTyVal t w with
    | .ok v => (decodeSeq t rest).map (fun vs => .cons v vs)
    | .error e => .error e
termination_by (sizeOf t, sizeOf ws, 1)

/-- Discriminated-union dispatch: read the tag, select the unique variant
declaring it, and validate against exactly that variant; a missing or
unrecognized tag is a validation error, never a silent default. -/
def decodeUnion (ms : Mdls) (kvs : WObj) : Except PyErr Ent :=
  match tagLookup kvs with
  | none => .error .unionTagMissing
  | some (.str t) =>
    match hfv : findVariant t ms with
    | some m =>
      have _hsz : sizeOf m < sizeOf ms := findVariant_sizeOf t ms m hfv
      decodeModel m kvs
    | none => .error .unionTagInvalid
  | some _ => .error .unionTagInvalid
termination_by (sizeOf ms, sizeOf kvs, 0)
end

/-- Replacing a present key makes it hold the new value. -/
theorem lookup_setW_self (d : WObj) (k : String) (v r : Wire)
    (hl : lookupW k d = some r) : lookupW k (setW k v d) = some v := by
  match d with
  | .nil => exact absurd hl (by simp [lookupW])
  | .cons k' v' rest =>
    rw [setW]
    by_cases h : k' = k
    · rw [if_pos h, lookupW, if_pos h]
    · rw [lookupW, if_neg h] at hl
      rw [if_neg h, lookupW, if_neg h]
      exact lookup_setW_self rest k v r hl
termination_by structural d

/-- Replacing one key leaves the others unchanged. -/
theorem lookup_setW_ne (d : WObj) (k k2 : String) (v : Wire) (h : k2 ≠ k) :
    lookupW k2 (setW k v d) = lookupW k2 d := by
  match d with
  | .nil => rfl
  | .cons k' v' rest =>
    rw [setW]
    by_cases hk : k' = k
    · rw [if_pos hk, lookupW, lookupW]
      have : ¬ k' = k2 := fun hh => h (hh ▸ hk ▸ rfl)
      rw [if_neg this, if_neg this]
    · rw [if_neg hk, lookupW, lookupW]
      by_cases h2 : k' = k2
      · rw [if_pos h2, if_pos h2]
      · rw [if_neg h2, if_neg h2]
        exact lookup_setW_ne rest k k2 v h
termination_by structural d

/-- Appending a key absent from the dict makes it hold the new value. -/
theorem lookup_appendW_self (d : WObj) (k : String) (v : Wire)
    (hl : lookupW k d = none) : lookupW k (appendW d k v) = some v := by
  match d with
  | .nil => simp [appendW, lookupW]
  | .cons k' v' rest =>
    rw [lookupW] at hl
    by_cases h : k' = k
    · rw [if_pos h] at hl
      exact absurd hl (by simp)
    · rw [if_neg h] at hl
      rw [appendW, lookupW, if_neg h]
      exact lookup_appendW_self rest k v hl
termination_by structural d

/-- Appending one key leaves the others unchanged. -/
theorem lookup_appendW_ne (d : WObj) (k k2 : String) (v : Wire) (h : k2 ≠ k) :
    lookupW k2 (appendW d k v) = lookupW k2 d := by
  match d with
  | .nil =>
    have : ¬ k = k2 := fun hh => h hh.symm
    simp [appendW, lookupW, this]
  | .cons k' v' rest =>
    rw [appendW, lookupW, lookupW]
    by_cases h2 : k' = k2
    · rw [if_pos h2, if_pos h2]
    · rw [if_neg h2, if_neg h2]
      exact lookup_appendW_ne rest k k2 v h
termination_by structural d

/-- The two dumps of the same value have the same Python type. -/
theorem structTag_dump_eq (v : Val) : structTag (dumpValU v) = structTag (dumpValN v) := by
  cases v <;> rfl

/-- The two dumps of the same sequence have the same length. -/
theorem dumpList_length_eq (vs : VList) :
    (dumpListU vs).length = (dumpListN vs).length := by
  match vs with
  | .nil => rfl
  | .cons v rest =>
    rw [dumpListU, dumpListN, WList.length, WList.length, dumpList_length_eq rest]
termination_by structural vs

/-- The `exclude_unset` dump of a field list has no binding for a wire key
no field uses. -/
theorem lookup_dumpFieldsU_absent (fs : EFs) (k : String)
    (h : efsHasWire k fs = false) : lookupW k (dumpFieldsU fs) = none := by
  match fs with
  | .nil => rfl
  | .cons n w v s rest =>
    rw [efsHasWire, Bool.or_eq_false_iff] at h
    obtain ⟨h1, h2⟩ := h
    have hne : ¬ w = k := by
      intro hh
      rw [hh] at h1
      simp at h1
    rw [dumpFieldsU]
    by_cases hs : s
    · rw [if_pos hs, lookupW, if_neg hne]
      exact lookup_dumpFieldsU_absent rest k h2
    · rw [if_neg hs]
      exact lookup_dumpFieldsU_absent rest k h2
termination_by structural fs

/-- What the destination of the dual-pass merge must hold for the fields
still to be processed: set fields appear with their `exclude_unset` dump,
unset fields are absent. -/
def PreFields : EFs → WObj → Prop
  | .nil, _ => True
  | .cons _ wire v s rest, pre =>
    (s = true → lookupW wire pre = some (dumpValU v)) ∧
    (s = false → lookupW wire pre = none) ∧
    PreFields rest pre

/-- `PreFields` only inspects the wire keys of the fields, so it transports
along any update that leaves those keys unchanged. -/
theorem preFields_ext (fs : EFs) (p q : WObj)
    (h : ∀ k, efsHasWire k fs = true → lookupW k q = lookupW k p)
    (hp : PreFields fs p) : PreFields fs q := by
  match fs with
  | .nil => trivial
  | .cons n w v s rest =>
    obtain ⟨h1, h2, h3⟩ := hp
    have hw : lookupW w q = lookupW w p := by
      apply h
      rw [efsHasWire]
      simp
    refine ⟨fun hs => by rw [hw]; exact h1 hs, fun hs => by rw [hw]; exact h2 hs, ?_⟩
    apply preFields_ext rest p q ?_ h3
    intro k hk
    apply h
    rw [efsHasWire, hk]
    simp
termination_by structural fs

/-- The `exclude_unset` dump itself satisfies `PreFields` when wire keys are
distinct. -/
theorem preFields_dumpU (fs : EFs) (hnd : efsWiresNodup fs = true) :
    PreFields fs (dumpFieldsU fs) := by
  match fs with
  | .nil => trivial
  | .cons n w v s rest =>
    rw [efsWiresNodup, Bool.and_eq_true] at hnd
    obtain ⟨hw, hrest⟩ := hnd
    rw [Bool.not_eq_true'] at hw
    have ihres := preFields_dumpU rest hrest
    by_cases hs : s
    · subst hs
      refine ⟨fun _ => ?_, fun hf => by simp at hf, ?_⟩
      · rw [dumpFieldsU]
        simp [lookupW]
      · rw [dumpFieldsU]
        simp only [if_true, reduceIte]
        apply preFields_ext rest (dumpFieldsU rest) _ ?_ ihres
        intro k hk
        have hne : ¬ w = k := by
          intro hh
          rw [hh] at hw
          rw [hk] at hw
          simp at hw
        rw [lookupW, if_neg hne]
    · rw [Bool.not_eq_true] at hs
      subst hs
      refine ⟨fun hf => by simp at hf, fun _ => ?_, ?_⟩
      · rw [dumpFieldsU]
        simp only [Bool.false_eq_true, if_false, reduceIte]
        exact lookup_dumpFieldsU_absent rest w hw
      · rw [dumpFieldsU]
        simp only [Bool.false_eq_true, if_false, reduceIte]
        exact ihres
termination_by structural fs

/-- Setting a key to the value it already holds is the identity. -/
theorem setW_lookup_id (d : WObj) (k : String) (v : Wire)
    (h : lookupW k d = some v) : setW k v d = d := by
  match d with
  | .nil => rfl
  | .cons k2 v2 rest =>
    rw [lookupW] at h
    rw [setW]
    by_cases hk : k2 = k
    · rw [if_pos hk] at h
      injection h with h
      rw [if_pos hk, h]
    · rw [if_neg hk] at h
      rw [if_neg hk, setW_lookup_id rest k v h]
termination_by structural d

mutual
/-- A stored value and the wire value standing for it in the dual-pass merge
result: scalars map to themselves, nested entities to recursively merged
mappings, sequences pointwise. -/
inductive MVal : Val → Wire → Prop where
  | vnone : MVal .none .null
  | vbool (b : Bool) : MVal (.bool b) (.bool b)
  | vint (n : Int) : MVal (.int n) (.int n)
  | vflt (x : FloatRep) : MVal (.flt x) (.flt x)
  | vstr (s : String) : MVal (.str s) (.str s)
  | vdt (ms : Int) : MVal (.dt ms) (.dt ms)
  | vdate (d : Int) : MVal (.date d) (.date d)
  | vent (e : Ent) (ws : WObj) : MEnt e ws → MVal (.ent e) (.obj ws)
  | vseq (vs : VList) (ws : WList) : MList vs ws → MVal (.seq vs) (.arr ws)

/-- Pointwise `MVal` on sequences. -/
inductive MList : VList → WList → Prop where
  | nil : MList .nil .nil
  | cons (v : Val) (w : Wire) (vs : VList) (ws : WList) :
      MVal v w → MList vs ws → MList (.cons v vs) (.cons w ws)

/-- The merged wire mapping of an entity: per-field lookup behavior plus the
guarantee that only declared wire keys occur. -/
inductive MEnt : Ent → WObj → Prop where
  | mk (fs : EFs) (w : WObj) :
      MFields fs w →
      (∀ k, lookupW k w ≠ none → efsHasWire k fs = true) →
      MEnt (.mk fs) w

/-- Per-field content of the merged wire mapping: an explicitly set field
appears under its wire key with the merged image of its value (so an explicit
`None` appears as `null`); an unset non-`None` (defaulted) field appears with
its `exclude_none` dump; an unset `None` field is absent. -/
inductive MFields : EFs → WObj → Prop where
  | nil (w : WObj) : MFields .nil w
  | consSet (n wi : String) (v : Val) (rest : EFs) (w : WObj) (wv : Wire) :
      lookupW wi w = some wv → MVal v wv → MFields rest w →
      MFields (.cons n wi v true rest) w
  | consDflt (n wi : String) (v : Val) (rest : EFs) (w : WObj) :
      v ≠ .none → lookupW wi w = some (dumpValN v) → MFields rest w →
      MFields (.cons n wi v false rest) w
  | consAbsent (n wi : String) (rest : EFs) (w : WObj) :
      lookupW wi w = none → MFields rest w →
      MFields (.cons n wi .none false rest) w
end

mutual
/-- The merge step of one explicitly set binding: merging the `exclude_none`
dump on top of the `exclude_unset` dump already present replaces the binding
by the merged image of the stored value. -/
theorem updateOne_dump (pre : WObj) (wi : String) (v : Val)
    (hwf : wfValS v = true) (hl : lookupW wi pre = some (dumpValU v)) :
    ∃ wv, updateOne pre wi (dumpValN v) = .ok (setW wi wv pre) ∧ MVal v wv := by
  match v with
  | .none =>
    exact ⟨.null, updateOne_scalar pre wi _ _ hl rfl (by intro es h; cases h)
      (by intro es h; cases h), MVal.vnone⟩
  | .bool b =>
    exact ⟨.bool b, updateOne_scalar pre wi _ _ hl rfl (by intro es h; cases h)
      (by intro es h; cases h), MVal.vbool b⟩
  | .int n =>
    exact ⟨.int n, updateOne_scalar pre wi _ _ hl rfl (by intro es h; cases h)
      (by intro es h; cases h), MVal.vint n⟩
  | .flt x =>
    exact ⟨.flt x, updateOne_scalar pre wi _ _ hl rfl (by intro es h; cases h)
      (by intro es h; cases h), MVal.vflt x⟩
  | .str s =>
    exact ⟨.str s, updateOne_scalar pre wi _ _ hl rfl (by intro es h; cases h)
      (by intro es h; cases h), MVal.vstr s⟩
  | .dt ms =>
    exact ⟨.dt ms, updateOne_scalar pre wi _ _ hl rfl (by intro es h; cases h)
      (by intro es h; cases h), MVal.vdt ms⟩
  | .date d =>
    exact ⟨.date d, updateOne_scalar pre wi _ _ hl rfl (by intro es h; cases h)
      (by intro es h; cases h), MVal.vdate d⟩
  | .ent sub =>
    obtain ⟨ws, hok, hm⟩ := merge_ent_ok sub (by rwa [wfValS] at hwf)
    refine ⟨.obj ws, ?_, MVal.vent sub ws hm⟩
    have h2 := updateOne_obj pre wi (dumpEntU sub) (dumpEntN sub) hl
    show updateOne pre wi (.obj (dumpEntN sub)) = .ok (setW wi (.obj ws) pre)
    rw [h2, hok]
    rfl
  | .seq vs =>
    obtain ⟨ws, hok, hm⟩ := merge_list_ok vs (by rwa [wfValS] at hwf)
    refine ⟨.arr ws, ?_, MVal.vseq vs ws hm⟩
    have h2 := updateOne_arr pre wi (dumpListU vs) (dumpListN vs) hl (dumpList_length_eq vs)
    show updateOne pre wi (.arr (dumpListN vs)) = .ok (setW wi (.arr ws) pre)
    rw [h2, hok]
    rfl
termination_by structural v

/-- The dual-pass merge of an entity succeeds and produces a wire mapping
with the per-field content of `MEnt`. -/
theorem merge_ent_ok (e : Ent) (hwf : wfEntS e = true) :
    ∃ w, deep_update_pass (dumpEntU e) (dumpEntN e) = .ok w ∧ MEnt e w := by
  match e with
  | .mk fs =>
    rw [wfEntS, Bool.and_eq_true] at hwf
    obtain ⟨hnd, hwfs⟩ := hwf
    obtain ⟨w, hok, hmf, hframe⟩ :=
      merge_fields_ok fs (dumpFieldsU fs) hwfs hnd (preFields_dumpU fs hnd)
    refine ⟨w, hok, MEnt.mk fs w hmf ?_⟩
    intro k hk
    by_contra hc
    rw [Bool.not_eq_true] at hc
    have h2 := hframe k hc
    rw [lookup_dumpFieldsU_absent fs k hc] at h2
    exact hk h2
termination_by structural e

/-- Element-wise merge of the two dumps of a sequence of entities. -/
theorem merge_list_ok (vs : VList) (hwf : wfListS vs = true) :
    ∃ ws, mergeElems (dumpListU vs) (dumpListN vs) = .ok ws ∧ MList vs ws := by
  match vs with
  | .nil => exact ⟨.nil, rfl, MList.nil⟩
  | .cons v rest =>
    cases v with
    | none => simp [wfListS] at hwf
    | bool b => simp [wfListS] at hwf
    | int nn => simp [wfListS] at hwf
    | flt x => simp [wfListS] at hwf
    | str s => simp [wfListS] at hwf
    | dt ms => simp [wfListS] at hwf
    | date d => simp [wfListS] at hwf
    | seq vv => simp [wfListS] at hwf
    | ent sub =>
      rw [wfListS, Bool.and_eq_true] at hwf
      obtain ⟨hv, hrest⟩ := hwf
      obtain ⟨ws, hok, hm⟩ := merge_ent_ok sub hv
      obtain ⟨wss, hoks, hms⟩ := merge_list_ok rest hrest
      refine ⟨.cons (.obj ws) wss, ?_, MList.cons _ _ _ _ (MVal.vent _ _ hm) hms⟩
      show mergeElems (.cons (.obj (dumpEntU sub)) (dumpListU rest))
          (.cons (.obj (dumpEntN sub)) (dumpListN rest)) = _
      rw [mergeElems]
      show (match (deep_update_pass (dumpEntU sub) (dumpEntN sub)).map Wire.obj with
        | .ok z => (mergeElems (dumpListU rest) (dumpListN rest)).map
            (fun zs => WList.cons z zs)
        | .error e => .error e) = _
      rw [hok]
      show (mergeElems (dumpListU rest) (dumpListN rest)).map _ = _
      rw [hoks]
      rfl
termination_by structural vs

/-- The central fold invariant of the dual-pass merge: processing the
`exclude_none` bindings of the remaining fields into a destination holding
their `exclude_unset` state yields the merged content field by field, leaving
all other keys untouched. -/
theorem merge_fields_ok (fs : EFs) (pre : WObj)
    (hwf : wfFieldsS fs = true) (hnd : efsWiresNodup fs = true)
    (hpre : PreFields fs pre) :
    ∃ w, deep_update_pass pre (dumpFieldsN fs) = .ok w
      ∧ MFields fs w
      ∧ (∀ k, efsHasWire k fs = false → lookupW k w = lookupW k pre) := by
  match fs with
  | .nil => exact ⟨pre, rfl, MFields.nil pre, fun k _ => rfl⟩
  | .cons n wi v s rest =>
    rw [wfFieldsS, Bool.and_eq_true] at hwf
    obtain ⟨hwfv, hwfrest⟩ := hwf
    rw [efsWiresNodup, Bool.and_eq_true] at hnd
    obtain ⟨hwnd, hndrest⟩ := hnd
    rw [Bool.not_eq_true'] at hwnd
    obtain ⟨hset, hunset, hprerest⟩ := hpre
    by_cases hs : s = true
    · subst hs
      obtain ⟨wv, hstep, hmval⟩ := updateOne_dump pre wi v hwfv (hset rfl)
      have hpre2 : PreFields rest (setW wi wv pre) := by
        apply preFields_ext rest pre _ ?_ hprerest
        intro k hk
        have hkne : k ≠ wi := by
          intro hh
          rw [hh] at hk
          rw [hk] at hwnd
          simp at hwnd
        exact lookup_setW_ne pre wi k wv hkne
      obtain ⟨w, hok, hmf, hframe⟩ :=
        merge_fields_ok rest (setW wi wv pre) hwfrest hndrest hpre2
      have hdn : dumpFieldsN (.cons n wi v true rest)
          = .cons wi (dumpValN v) (dumpFieldsN rest)
          ∨ (v = .none ∧ dumpFieldsN (.cons n wi v true rest) = dumpFieldsN rest) := by
        cases v
        · exact Or.inr ⟨rfl, rfl⟩
        all_goals exact Or.inl rfl
      have hlookw : lookupW wi w = some wv := by
        rw [hframe wi hwnd]
        exact lookup_setW_self pre wi wv (dumpValU v) (hset rfl)
      refine ⟨w, ?_, ?_, ?_⟩
      · rcases hdn with hdn | ⟨hvn, hdn⟩
        · rw [hdn, deep_update_pass, hstep]
          exact hok
        · -- v = .none: the exclude_none pass skips the field, but the merge
          -- step on a null binding is the identity overwrite, so the same
          -- result is reached without it.
          rw [hdn]
          subst hvn
          cases hmval
          have hnull : setW wi Wire.null pre = pre := by
            have := hset rfl
            exact setW_lookup_id pre wi Wire.null this
          rw [hnull] at hok hframe hpre2
          exact hok
      · exact MFields.consSet n wi v rest w wv hlookw hmval hmf
      · intro k hk
        rw [efsHasWire, Bool.or_eq_false_iff] at hk
        obtain ⟨hk1, hk2⟩ := hk
        have hkne : k ≠ wi := by
          intro hh
          rw [hh] at hk1
          simp at hk1
        rw [hframe k hk2]
        exact lookup_setW_ne pre wi k wv hkne
    · have hsf : s = false := by
        rwa [Bool.not_eq_true] at hs
      subst hsf
      have hlpre : lookupW wi pre = none := hunset rfl
      by_cases hv : v = .none
      · subst hv
        obtain ⟨w, hok, hmf, hframe⟩ := merge_fields_ok rest pre hwfrest hndrest hprerest
        refine ⟨w, hok, ?_, ?_⟩
        · refine MFields.consAbsent n wi rest w ?_ hmf
          rw [hframe wi hwnd]
          exact hlpre
        · intro k hk
          rw [efsHasWire, Bool.or_eq_false_iff] at hk
          exact hframe k hk.2
      · have hdn : dumpFieldsN (.cons n wi v false rest)
            = .cons wi (dumpValN v) (dumpFieldsN rest) := by
          cases v <;> first | exact absurd rfl hv | rfl
        have hstep := updateOne_absent pre wi (dumpValN v) hlpre
        have hpre2 : PreFields rest (appendW pre wi (dumpValN v)) := by
          apply preFields_ext rest pre _ ?_ hprerest
          intro k hk
          have hkne : k ≠ wi := by
            intro hh
            rw [hh] at hk
            rw [hk] at hwnd
            simp at hwnd
          exact lookup_appendW_ne pre wi k _ hkne
        obtain ⟨w, hok, hmf, hframe⟩ :=
          merge_fields_ok rest (appendW pre wi (dumpValN v)) hwfrest hndrest hpre2
        refine ⟨w, ?_, ?_, ?_⟩
        · rw [hdn, deep_update_pass, hstep]
          exact hok
        · refine MFields.consDflt n wi v rest w hv ?_ hmf
          rw [hframe wi hwnd]
          exact lookup_appendW_self pre wi (dumpValN v) hlpre
        · intro k hk
          rw [efsHasWire, Bool.or_eq_false_iff] at hk
          obtain ⟨hk1, hk2⟩ := hk
          have hkne : k ≠ wi := by
            intro hh
            rw [hh] at hk1
            simp at hk1
          rw [hframe k hk2]
          exact lookup_appendW_ne pre wi k _ hkne
termination_by structural fs
end

/-- Concatenation of instance field lists. -/
def efsConcat : EFs → EFs → EFs
  | .nil, b => b
  | .cons n w v s rest, b => .cons n w v s (efsConcat rest b)

/-- Concatenating after a snoc is consing onto the second part. -/
theorem efsConcat_snoc (a : EFs) (n w : String) (v : Val) (s : Bool) (b : EFs) :
    efsConcat (efsSnoc a n w v s) b = efsConcat a (.cons n w v s b) := by
  match a with
  | .nil => rfl
  | .cons n2 w2 v2 s2 rest =>
    rw [efsSnoc, efsConcat, efsConcat, efsConcat_snoc rest n w v s b]
termination_by structural a

/-- Equivalence of optional values. -/
def optValEqv : Option Val → Option Val → Bool
  | none, none => true
  | some v, some v2 => eqvVal v v2
  | _, _ => false

/-- Equivalent field lists have equivalent attribute lookups. -/
theorem eqv_lookupName (a b : EFs) (h : eqvFields a b = true) (n : String) :
    optValEqv (efsLookupName n a) (efsLookupName n b) = true := by
  match a, b with
  | .nil, .nil => rfl
  | .cons n1 w1 v1 s1 r1, .cons n2 w2 v2 s2 r2 =>
    rw [eqvFields, Bool.and_eq_true, Bool.and_eq_true] at h
    obtain ⟨⟨hn, hv⟩, hr⟩ := h
    have hn2 := eq_of_beq hn
    rw [efsLookupName, efsLookupName, hn2]
    by_cases hcase : n2 = n
    · rw [if_pos hcase, if_pos hcase]
      exact hv
    · rw [if_neg hcase, if_neg hcase]
      exact eqv_lookupName r1 r2 hr n
  | .nil, .cons n2 w2 v2 s2 r2 => exact Bool.noConfusion h
  | .cons n1 w1 v1 s1 r1, .nil => exact Bool.noConfusion h
termination_by structural a

/-- Equivalent values have equivalent attributes. -/
theorem entField_eqv (v v2 : Val) (h : eqvVal v v2 = true) (n : String) :
    optValEqv (entField n v) (entField n v2) = true := by
  cases v <;> cases v2 <;> try exact Bool.noConfusion h
  case ent.ent e e2 =>
    rw [eqvVal] at h
    obtain ⟨fs⟩ := e
    obtain ⟨fs2⟩ := e2
    exact eqv_lookupName fs fs2 h n
  all_goals rfl

/-- Equivalent `.id` values give the same view. -/
theorem pcfNav3_eqv (o1 o2 : Option Val) (h : optValEqv o1 o2 = true) :
    pcfNav3 o1 = pcfNav3 o2 := by
  cases o1 <;> cases o2 <;> try exact Bool.noConfusion h
  · rfl
  case some.some u u2 =>
    rw [optValEqv] at h
    cases u <;> cases u2 <;> try exact Bool.noConfusion h
    case str.str =>
      rw [eqvVal] at h
      have h2 := eq_of_beq h
      subst h2
      rfl
    all_goals rfl

/-- Equivalent `.field_type` values give the same view. -/
theorem pcfNav2_eqv (o1 o2 : Option Val) (h : optValEqv o1 o2 = true) :
    pcfNav2 o1 = pcfNav2 o2 := by
  cases o1 <;> cases o2 <;> try exact Bool.noConfusion h
  · rfl
  case some.some u u2 =>
    rw [optValEqv] at h
    rw [pcfNav2, pcfNav2]
    exact pcfNav3_eqv _ _ (entField_eqv u u2 h "id")

/-- Equivalent `.field` values give the same view. -/
theorem pcfNav1_eqv (o1 o2 : Option Val) (h : optValEqv o1 o2 = true) :
    pcfNav1 o1 = pcfNav1 o2 := by
  cases o1 <;> cases o2 <;> try exact Bool.noConfusion h
  · rfl
  case some.some u u2 =>
    rw [optValEqv] at h
    rw [pcfNav1, pcfNav1]
    exact pcfNav2_eqv _ _ (entField_eqv u u2 h "field_type")

/-- Equivalent sibling values give the same view. -/
theorem pcfView_eqv (v v2 : Val) (h : eqvVal v v2 = true) :
    pcfViewOf v = pcfViewOf v2 := by
  cases v <;> cases v2 <;> try exact Bool.noConfusion h
  case none.none => rfl
  all_goals exact pcfNav1_eqv _ _ (entField_eqv _ _ h "field")

/-- Equivalent validated prefixes give the same `ValidationInfo`. -/
theorem infoOf_eqv (a b : EFs) (h : eqvFields a b = true) : infoOf a = infoOf b := by
  have h1 := eqv_lookupName a b h "project_custom_field"
  rw [infoOf, infoOf]
  cases ha : efsLookupName "project_custom_field" a with
  | none =>
    cases hb : efsLookupName "project_custom_field" b with
    | none => rfl
    | some u2 =>
      rw [ha, hb] at h1
      exact Bool.noConfusion h1
  | some u =>
    cases hb : efsLookupName "project_custom_field" b with
    | none =>
      rw [ha, hb] at h1
      exact Bool.noConfusion h1
    | some u2 =>
      rw [ha, hb] at h1
      rw [optValEqv] at h1
      show VdtInfo.mk true (pcfViewOf u) = VdtInfo.mk true (pcfViewOf u2)
      rw [pcfView_eqv u u2 h1]

/-- Concatenating nothing is the identity. -/
theorem efsConcat_nil (a : EFs) : efsConcat a .nil = a := by
  match a with
  | .nil => rfl
  | .cons n w v s rest => rw [efsConcat, efsConcat_nil rest]
termination_by structural a

/-- Scalar-equal values are Python-equal. -/
theorem valScalarEq_eqvVal (v v2 : Val) (h : valScalarEq v v2 = true) :
    eqvVal v v2 = true := by
  cases v <;> cases v2 <;> try exact Bool.noConfusion h
  case none.none => rfl
  case dt.dt => exact h
  case str.str => exact h
  case int.int => exact h
  case flt.flt => exact h

/-- Python equality of field lists extends along `efsSnoc` (the wire keys and
set flags do not participate). -/
theorem eqvFields_snoc (a b : EFs) (n w w2 : String) (v v2 : Val) (s s2 : Bool)
    (h : eqvFields a b = true) (hv : eqvVal v v2 = true) :
    eqvFields (efsSnoc a n w v s) (efsSnoc b n w2 v2 s2) = true := by
  match a, b with
  | .nil, .nil =>
    rw [efsSnoc, efsSnoc]
    simp [eqvFields, hv]
  | .cons n1 w1 v1 s1 r1, .cons n2 w2' v2' s2' r2 =>
    rw [eqvFields, Bool.and_eq_true, Bool.and_eq_true] at h
    obtain ⟨⟨hn, hvv⟩, hr⟩ := h
    rw [efsSnoc, efsSnoc, eqvFields, hn, hvv, eqvFields_snoc r1 r2 n w w2 v v2 s s2 hr hv]
    rfl
  | .nil, .cons .. => exact Bool.noConfusion h
  | .cons .., .nil => exact Bool.noConfusion h
termination_by structural a

/-- A merged image of a non-`None` value is never `null`. -/
theorem mval_null (v : Val) (wv : Wire) (h : MVal v wv) (hv : v ≠ Val.none) :
    wv ≠ Wire.null := by
  cases h <;> first
    | exact absurd rfl hv
    | exact fun hh => Wire.noConfusion hh

/-- A conformant simple value re-validates to a scalar-equal value. -/
theorem conformsSimple_ok (info : VdtInfo) (v : Val)
    (h : conformsSimple info v = true) :
    ∃ v2, decodeSimpleValue info (dumpValU v) = .ok v2 ∧ valScalarEq v v2 = true := by
  rw [conformsSimple] at h
  cases hd : decodeSimpleValue info (dumpValU v) with
  | ok v2 =>
    rw [hd] at h
    exact ⟨v2, rfl, h⟩
  | error e =>
    rw [hd] at h
    exact Bool.noConfusion h

/-- A conformant simple value is a scalar, so its merged image is its own
dump. -/
theorem conformsSimple_mval (info : VdtInfo) (v : Val) (wv : Wire)
    (h : conformsSimple info v = true) (hm : MVal v wv) : wv = dumpValU v := by
  cases v <;>
    first
    | (cases hm; rfl)
    | simp [conformsSimple, decodeSimpleValue, toSimpleVal, dumpValU] at h

/-- A conformant simple value is structurally well-formed (it is a scalar). -/
theorem conformsSimple_wfValS (info : VdtInfo) (v : Val)
    (h : conformsSimple info v = true) : wfValS v = true := by
  cases v <;>
    first
    | rfl
    | simp [conformsSimple, decodeSimpleValue, toSimpleVal, dumpValU] at h

/-- A conformant instance uses exactly the wire keys its model declares. -/
theorem conforms_hasWire (fds : Fds) (efs : EFs) (acc : EFs)
    (h : conformsFds fds efs acc = true) (k : String) :
    efsHasWire k efs = fdsHasWire k fds := by
  match fds, efs with
  | .nil, .nil => rfl
  | .cons name wire ty dflt frest, .cons n' wi' v s erest =>
    rw [conformsFds, Bool.and_eq_true, Bool.and_eq_true, Bool.and_eq_true] at h
    obtain ⟨⟨⟨hn, hw⟩, _⟩, hrest⟩ := h
    have hweq : wire = wi' := eq_of_beq hw
    rw [efsHasWire, fdsHasWire, hweq,
      conforms_hasWire frest erest (efsSnoc acc n' wi' v s) hrest k]
  | .nil, .cons .. => exact Bool.noConfusion h
  | .cons .., .nil => exact Bool.noConfusion h
termination_by structural fds

/-- A conformant instance of a model with distinct wire keys has distinct
wire keys. -/
theorem conforms_nodup (fds : Fds) (efs : EFs) (acc : EFs)
    (h : conformsFds fds efs acc = true) (hnd : fdsWiresNodup fds = true) :
    efsWiresNodup efs = true := by
  match fds, efs with
  | .nil, .nil => rfl
  | .cons name wire ty dflt frest, .cons n' wi' v s erest =>
    rw [conformsFds, Bool.and_eq_true, Bool.and_eq_true, Bool.and_eq_true] at h
    obtain ⟨⟨⟨hn, hw⟩, _⟩, hrest⟩ := h
    have hweq : wire = wi' := eq_of_beq hw
    rw [fdsWiresNodup, Bool.and_eq_true] at hnd
    obtain ⟨hh, hnd2⟩ := hnd
    rw [efsWiresNodup, Bool.and_eq_true]
    refine ⟨?_, conforms_nodup frest erest (efsSnoc acc n' wi' v s) hrest hnd2⟩
    rw [conforms_hasWire frest erest (efsSnoc acc n' wi' v s) hrest wi', ← hweq]
    exact hh
  | .nil, .cons .. => exact Bool.noConfusion h
  | .cons .., .nil => exact Bool.noConfusion h
termination_by structural fds

/-- Under `nameSafe`, a python name that doubles as some declared wire key
can only be the field's own wire key. -/
theorem nameSafe_hasWire (name wire : String) (fds : Fds)
    (hs : nameSafe name wire fds = true) (hh : fdsHasWire name fds = true) :
    name = wire := by
  match fds with
  | .nil => exact Bool.noConfusion hh
  | .cons n2 w2 ty2 d2 rest =>
    rw [nameSafe, Bool.and_eq_true] at hs
    obtain ⟨hhead, hrest⟩ := hs
    rw [fdsHasWire, Bool.or_eq_true] at hh
    cases hh with
    | inl h1 =>
      have hw : w2 = name := eq_of_beq h1
      rw [Bool.or_eq_true] at hhead
      cases hhead with
      | inl h2 =>
        subst hw
        simp at h2
      | inr h2 =>
        have h3 : w2 = wire := eq_of_beq h2
        subst hw
        exact h3
    | inr h1 => exact nameSafe_hasWire name wire rest hrest h1
termination_by structural fds

/-- The variant selected in a well-formed union is well-formed. -/
theorem findVariant_wf (t : String) (ms : Mdls) (m : Mdl)
    (hwf : wfMdls ms = true) (h : findVariant t ms = some m) : wfMdl m = true := by
  match ms with
  | .nil => exact Option.noConfusion h
  | .cons m' rest =>
    rw [wfMdls, Bool.and_eq_true, Bool.and_eq_true] at hwf
    obtain ⟨⟨h1, h2⟩, h3⟩ := hwf
    rw [findVariant] at h
    by_cases hcont : (mdlTags m').contains t
    · rw [if_pos hcont] at h
      injection h with h
      subst h
      exact h1
    · rw [if_neg hcont] at h
      exact findVariant_wf t rest m h3 h
termination_by structural ms

/-- The selected variant declares the dispatching tag. -/
theorem findVariant_contains (t : String) (ms : Mdls) (m : Mdl)
    (h : findVariant t ms = some m) : (mdlTags m).contains t = true := by
  match ms with
  | .nil => exact Option.noConfusion h
  | .cons m' rest =>
    rw [findVariant] at h
    by_cases hcont : (mdlTags m').contains t
    · rw [if_pos hcont] at h
      injection h with h
      subst h
      exact hcont
    · rw [if_neg hcont] at h
      exact findVariant_contains t rest m h
termination_by structural ms

/-- In `entities.py` every discriminator field (wire key `$type`) has the
python name `type`; the decoder's by-name fallback for the tag relies on it. -/
def fdsTagNamed : Fds → Bool
  | .nil => true
  | .cons name wire _ _ rest => (wire != "$type" || name == "type") && fdsTagNamed rest

/-- `fdsTagNamed` on a model. -/
def mdlTagNamed : Mdl → Bool
  | .mk fds => fdsTagNamed fds

/-- `fdsTagNamed` on all union members. -/
def mdlsTagNamed : Mdls → Bool
  | .nil => true
  | .cons m rest => mdlTagNamed m && mdlsTagNamed rest

/-- The selected variant of a tag-named union is tag-named. -/
theorem findVariant_named (t : String) (ms : Mdls) (m : Mdl)
    (hn : mdlsTagNamed ms = true) (h : findVariant t ms = some m) :
    mdlTagNamed m = true := by
  match ms with
  | .nil => exact Option.noConfusion h
  | .cons m' rest =>
    rw [mdlsTagNamed, Bool.and_eq_true] at hn
    obtain ⟨h1, h2⟩ := hn
    rw [findVariant] at h
    by_cases hcont : (mdlTags m').contains t
    · rw [if_pos hcont] at h
      injection h with h
      subst h
      exact h1
    · rw [if_neg hcont] at h
      exact findVariant_named t rest m h2 h
termination_by structural ms

/-- The discriminator contribution of one field value (the inner match of
`efsTag`). -/
def efsTagHead : Val → Option String
  | .str t2 => some t2
  | _ => none

/-- The merged wire mapping carries the instance discriminator under
`$type`. -/
theorem mfields_tag_lookup (fs : EFs) (w : WObj) (t : String)
    (hmf : MFields fs w) (ht : efsTag fs = some t) :
    lookupW "$type" w = some (.str t) := by
  match fs with
  | .nil => exact Option.noConfusion ht
  | .cons n wi v s rest =>
    have ht2 : (if wi = "$type" then efsTagHead v else efsTag rest) = some t := ht
    by_cases hwt : wi = "$type"
    · rw [if_pos hwt] at ht2
      subst hwt
      cases v with
      | str t' =>
        have ht3 : some t' = some t := ht2
        injection ht3 with ht3
        subst ht3
        cases hmf with
        | consSet _ _ _ _ _ wv hlook hmv hmf2 =>
          cases hmv
          exact hlook
        | consDflt _ _ _ _ _ hne hlook hmf2 => exact hlook
      | none => exact Option.noConfusion ht2
      | bool b => exact Option.noConfusion ht2
      | int n2 => exact Option.noConfusion ht2
      | flt x => exact Option.noConfusion ht2
      | dt ms => exact Option.noConfusion ht2
      | date d => exact Option.noConfusion ht2
      | ent e => exact Option.noConfusion ht2
      | seq vs => exact Option.noConfusion ht2
    · rw [if_neg hwt] at ht2
      cases hmf with
      | consSet _ _ _ _ _ wv hlook hmv hmf2 => exact mfields_tag_lookup rest w t hmf2 ht2
      | consDflt _ _ _ _ _ hne hlook hmf2 => exact mfields_tag_lookup rest w t hmf2 ht2
      | consAbsent _ _ _ _ hlook hmf2 => exact mfields_tag_lookup rest w t hmf2 ht2
termination_by structural fs

/-- The dispatch of `decodeUnion`, with the inner variant match in plain
(non-dependent) form. -/
theorem decodeUnion_eq (ms : Mdls) (kvs : WObj) :
    decodeUnion ms kvs = (match tagLookup kvs with
      | Option.none => .error .unionTagMissing
      | some (.str t) =>
        (match findVariant t ms with
         | some m => decodeModel m kvs
         | Option.none => .error .unionTagInvalid)
      | some _ => .error .unionTagInvalid) := by
  rw [decodeUnion.eq_def]
  split
  · rfl
  · split
    · next m hfv =>
        conv_rhs => rw [hfv]
    · next hfv =>
        conv_rhs => rw [hfv]
  · rfl

/-- A payload without a tag never decodes. -/
theorem decodeUnion_missing (ms : Mdls) (kvs : WObj)
    (h : tagLookup kvs = Option.none) :
    decodeUnion ms kvs = .error .unionTagMissing := by
  simp only [decodeUnion_eq, h]

/-- A tag no variant declares never decodes. -/
theorem decodeUnion_invalid (ms : Mdls) (kvs : WObj) (t : String)
    (h : tagLookup kvs = some (.str t)) (h2 : findVariant t ms = Option.none) :
    decodeUnion ms kvs = .error .unionTagInvalid := by
  simp only [decodeUnion_eq, h, h2]

/-- A declared tag dispatches to exactly the variant declaring it. -/
theorem decodeUnion_found (ms : Mdls) (kvs : WObj) (t : String) (m : Mdl)
    (h : tagLookup kvs = some (.str t)) (h2 : findVariant t ms = some m) :
    decodeUnion ms kvs = decodeModel m kvs := by
  simp only [decodeUnion_eq, h, h2]

/-- Wire-key membership after a snoc. -/
theorem efsHasWire_snoc (k : String) (a : EFs) (n w : String) (v : Val) (s : Bool) :
    efsHasWire k (efsSnoc a n w v s) = (efsHasWire k a || (w == k)) := by
  match a with
  | .nil => simp [efsSnoc, efsHasWire]
  | .cons n2 w2 v2 s2 rest =>
    rw [efsSnoc, efsHasWire, efsHasWire, efsHasWire_snoc k rest n w v s, Bool.or_assoc]
termination_by structural a

/-- A present discriminator survives a snoc. -/
theorem efsTag_snoc_some (a : EFs) (t : String) (n w : String) (v : Val) (s : Bool)
    (h : efsTag a = some t) : efsTag (efsSnoc a n w v s) = some t := by
  match a with
  | .nil => exact Option.noConfusion h
  | .cons n2 w2 v2 s2 rest =>
    have h2 : (if w2 = "$type" then efsTagHead v2 else efsTag rest) = some t := h
    show (if w2 = "$type" then efsTagHead v2 else efsTag (efsSnoc rest n w v s)) = some t
    by_cases hw : w2 = "$type"
    · rw [if_pos hw]
      rw [if_pos hw] at h2
      exact h2
    · rw [if_neg hw]
      rw [if_neg hw] at h2
      exact efsTag_snoc_some rest t n w v s h2
termination_by structural a

/-- Snoccing the first `$type` binding sets the discriminator. -/
theorem efsTag_snoc_new (a : EFs) (t : String) (n : String) (s : Bool)
    (h : efsHasWire "$type" a = false) :
    efsTag (efsSnoc a n "$type" (.str t) s) = some t := by
  match a with
  | .nil => rfl
  | .cons n2 w2 v2 s2 rest =>
    rw [efsHasWire, Bool.or_eq_false_iff] at h
    obtain ⟨h1, h2⟩ := h
    have hw : ¬ w2 = "$type" := by
      intro hh
      rw [hh] at h1
      simp at h1
    show (if w2 = "$type" then efsTagHead v2 else
      efsTag (efsSnoc rest n "$type" (.str t) s)) = some t
    rw [if_neg hw]
    exact efsTag_snoc_new rest t n s h2
termination_by structural a

/-- The defining equation of `decodeModel`. -/
theorem decodeModel_mk (fds : Fds) (w : WObj) :
    decodeModel (.mk fds) w = (decodeFields fds .nil w).map .mk := by
  rw [decodeModel.eq_def]

/-- The defining equation of `decodeFields` on an empty descriptor list. -/
theorem decodeFields_nil (acc : EFs) (w : WObj) :
    decodeFields .nil acc w = .ok acc := by
  rw [decodeFields.eq_def]

/-- The defining equation of `decodeFields` on one descriptor. -/
theorem decodeFields_cons (name wire : String) (ty : Ty) (dflt : Dflt) (rest : Fds)
    (acc : EFs) (w : WObj) :
    decodeFields (.cons name wire ty dflt rest) acc w =
      (match decodeField name wire ty dflt acc w with
       | .ok acc2 => decodeFields rest acc2 w
       | .error e => .error e) := by
  rw [decodeFields.eq_def]

/-- The defining equation of `decodeField`. -/
theorem decodeField_eq (name wire : String) (ty : Ty) (dflt : Dflt) (acc : EFs)
    (w : WObj) :
    decodeField name wire ty dflt acc w =
      decodeFieldW name wire ty dflt acc (lookupAlias wire name w) := by
  rw [decodeField.eq_def]

/-- The defining equation of `decodeFieldW` on a found value. -/
theorem decodeFieldW_some (name wire : String) (ty : Ty) (dflt : Dflt) (acc : EFs)
    (wv : Wire) :
    decodeFieldW name wire ty dflt acc (some wv) =
      (decodeVal ty dflt acc wv).map (fun v => efsSnoc acc name wire v true) := by
  rw [decodeFieldW.eq_def]

/-- An absent required field is a missing-field error. -/
theorem decodeFieldW_req (name wire : String) (ty : Ty) (acc : EFs) :
    decodeFieldW name wire ty .required acc Option.none =
      .error (.missingField wire) := by
  rw [decodeFieldW.eq_def]

/-- An absent `Optional` field populates with its `None` default, unset. -/
theorem decodeFieldW_opt (name wire : String) (ty : Ty) (acc : EFs) :
    decodeFieldW name wire ty .none acc Option.none =
      .ok (efsSnoc acc name wire .none false) := by
  rw [decodeFieldW.eq_def]

/-- An absent discriminator populates with its literal default, unset. -/
theorem decodeFieldW_tag (name wire : String) (ty : Ty) (t : String) (acc : EFs) :
    decodeFieldW name wire ty (.tag t) acc Option.none =
      .ok (efsSnoc acc name wire (.str t) false) := by
  rw [decodeFieldW.eq_def]

/-- A found and validated wire value populates the field as explicitly set. -/
theorem decodeField_found (name wire : String) (ty : Ty) (dflt : Dflt) (acc : EFs)
    (w : WObj) (wv : Wire) (v : Val)
    (hla : lookupAlias wire name w = some wv)
    (hdv : decodeVal ty dflt acc wv = .ok v) :
    decodeField name wire ty dflt acc w = .ok (efsSnoc acc name wire v true) := by
  rw [decodeField_eq, hla, decodeFieldW_some, hdv]
  rfl

/-- An absent `Optional` field populates with its `None` default, unset. -/
theorem decodeField_absent_opt (name wire : String) (ty : Ty) (acc : EFs)
    (w : WObj) (hla : lookupAlias wire name w = Option.none) :
    decodeField name wire ty .none acc w = .ok (efsSnoc acc name wire .none false) := by
  rw [decodeField_eq, hla, decodeFieldW_opt]

/-- An absent discriminator populates with its literal default, unset. -/
theorem decodeField_absent_tag (name wire : String) (ty : Ty) (t : String)
    (acc : EFs) (w : WObj) (hla : lookupAlias wire name w = Option.none) :
    decodeField name wire ty (.tag t) acc w = .ok (efsSnoc acc name wire (.str t) false) := by
  rw [decodeField_eq, hla, decodeFieldW_tag]

/-- A successful field step drives the loop forward. -/
theorem decodeFields_step (name wire : String) (ty : Ty) (dflt : Dflt) (rest : Fds)
    (acc acc2 : EFs) (w : WObj)
    (hfld : decodeField name wire ty dflt acc w = .ok acc2) :
    decodeFields (.cons name wire ty dflt rest) acc w = decodeFields rest acc2 w := by
  simp only [decodeFields_cons, hfld]

/-- The defining equation of `decodeVal`. -/
theorem decodeVal_eq (ty : Ty) (dflt : Dflt) (acc : EFs) (wv : Wire) :
    decodeVal ty dflt acc wv =
      (if ty = .simpleValue then decodeSimpleValue (infoOf acc) wv
       else if wv = .null then
         (if isOptionalDflt dflt then .ok .none else .error .invalidValue)
       else decodeTyVal ty wv) := by
  rw [decodeVal.eq_def]

/-- The defining equation of `decodeSeq` on an empty array. -/
theorem decodeSeq_nil (t : Ty) : decodeSeq t .nil = .ok .nil := by
  rw [decodeSeq.eq_def]

/-- The defining equation of `decodeSeq` on one element. -/
theorem decodeSeq_cons (t : Ty) (wv : Wire) (ws : WList) :
    decodeSeq t (.cons wv ws) =
      (match decodeTyVal t wv with
       | .ok v => (decodeSeq t ws).map (fun vs => .cons v vs)
       | .error e => .error e) := by
  rw [decodeSeq.eq_def]

/-- The tag contribution of one descriptor type (the inner match of
`fdsTags`). -/
def fdsTagsHead : Ty → List String
  | .lit tags => tags
  | _ => []

/-- The defining equation of `fdsTags` on one descriptor. -/
theorem fdsTags_cons (name wire : String) (ty : Ty) (dflt : Dflt) (rest : Fds) :
    fdsTags (.cons name wire ty dflt rest) =
      (if wire = "$type" then fdsTagsHead ty else fdsTags rest) := by
  cases ty <;> rfl

/-- Later fields cannot overwrite an already-decoded discriminator. -/
theorem decode_tag_keep (fds : Fds) (acc : EFs) (w : WObj) (out : EFs) (t : String)
    (hdec : decodeFields fds acc w = .ok out) (ht : efsTag acc = some t) :
    efsTag out = some t := by
  match fds with
  | .nil =>
    rw [decodeFields_nil] at hdec
    injection hdec with h
    subst h
    exact ht
  | .cons name wire ty dflt rest =>
    cases hla : lookupAlias wire name w with
    | some wv =>
      cases hdv : decodeVal ty dflt acc wv with
      | ok v =>
        rw [decodeFields_step name wire ty dflt rest acc _ w
          (decodeField_found name wire ty dflt acc w wv v hla hdv)] at hdec
        exact decode_tag_keep rest _ w out t hdec
          (efsTag_snoc_some acc t name wire v true ht)
      | error e =>
        have hfld : decodeField name wire ty dflt acc w = .error e := by
          rw [decodeField_eq, hla, decodeFieldW_some, hdv]
          rfl
        rw [decodeFields_cons] at hdec
        simp only [hfld] at hdec
        exact Except.noConfusion hdec
    | none =>
      cases dflt with
      | required =>
        have hfld : decodeField name wire ty .required acc w
            = .error (.missingField wire) := by
          rw [decodeField_eq, hla, decodeFieldW_req]
        rw [decodeFields_cons] at hdec
        simp only [hfld] at hdec
        exact Except.noConfusion hdec
      | none =>
        rw [decodeFields_step name wire ty .none rest acc _ w
          (decodeField_absent_opt name wire ty acc w hla)] at hdec
        exact decode_tag_keep rest _ w out t hdec
          (efsTag_snoc_some acc t name wire .none false ht)
      | tag t2 =>
        rw [decodeFields_step name wire ty (.tag t2) rest acc _ w
          (decodeField_absent_tag name wire ty t2 acc w hla)] at hdec
        exact decode_tag_keep rest _ w out t hdec
          (efsTag_snoc_some acc t name wire (.str t2) false ht)
termination_by structural fds

/-- A decoded field list carries exactly the wire tag as its discriminator,
whenever the model declares the tag the wire carries. -/
theorem decode_tag (fds : Fds) (acc : EFs) (w : WObj) (out : EFs) (t : String)
    (htag : tagLookup w = some (.str t))
    (hcont : (fdsTags fds).contains t = true)
    (hnamed : fdsTagNamed fds = true)
    (hacc : efsHasWire "$type" acc = false)
    (hdec : decodeFields fds acc w = .ok out) : efsTag out = some t := by
  match fds with
  | .nil => exact Bool.noConfusion hcont
  | .cons name wire ty dflt rest =>
    rw [fdsTagNamed, Bool.and_eq_true] at hnamed
    obtain ⟨hn1, hn2⟩ := hnamed
    by_cases hwt : wire = "$type"
    · subst hwt
      have hname : name = "type" := by
        rw [Bool.or_eq_true] at hn1
        cases hn1 with
        | inl h => simp at h
        | inr h => exact eq_of_beq h
      subst hname
      have hla : lookupAlias "$type" "type" w = some (.str t) := htag
      cases ty with
      | lit tags =>
        have hct : tags.contains t = true := hcont
        have hdv : decodeVal (.lit tags) dflt acc (.str t) = .ok (.str t) := by
          rw [decodeVal_eq, if_neg (fun hh => Ty.noConfusion hh),
            if_neg (fun hh => Wire.noConfusion hh), decodeTyVal.eq_def]
          show (if tags.contains t = true then (.ok (.str t) : Except PyErr Val)
            else .error .invalidValue) = .ok (.str t)
          rw [if_pos hct]
        rw [decodeFields_step "type" "$type" (.lit tags) dflt rest acc _ w
          (decodeField_found "type" "$type" (.lit tags) dflt acc w (.str t) (.str t)
            hla hdv)] at hdec
        exact decode_tag_keep rest _ w out t hdec (efsTag_snoc_new acc t "type" true hacc)
      | str => exact Bool.noConfusion hcont
      | int => exact Bool.noConfusion hcont
      | bool => exact Bool.noConfusion hcont
      | dtime => exact Bool.noConfusion hcont
      | ydate => exact Bool.noConfusion hcont
      | ent m => exact Bool.noConfusion hcont
      | seq t2 => exact Bool.noConfusion hcont
      | union ms => exact Bool.noConfusion hcont
      | simpleValue => exact Bool.noConfusion hcont
    · have hcont2 : (fdsTags rest).contains t = true := by
        rw [fdsTags_cons, if_neg hwt] at hcont
        exact hcont
      have hsnoc : ∀ v2 : Val, ∀ s2 : Bool,
          efsHasWire "$type" (efsSnoc acc name wire v2 s2) = false := by
        intro v2 s2
        rw [efsHasWire_snoc, hacc, Bool.false_or]
        exact beq_eq_false_iff_ne.mpr hwt
      cases hla : lookupAlias wire name w with
      | some wv =>
        cases hdv : decodeVal ty dflt acc wv with
        | ok v =>
          rw [decodeFields_step name wire ty dflt rest acc _ w
            (decodeField_found name wire ty dflt acc w wv v hla hdv)] at hdec
          exact decode_tag rest _ w out t htag hcont2 hn2 (hsnoc v true) hdec
        | error e =>
          have hfld : decodeField name wire ty dflt acc w = .error e := by
            rw [decodeField_eq, hla, decodeFieldW_some, hdv]
            rfl
          rw [decodeFields_cons] at hdec
          simp only [hfld] at hdec
          exact Except.noConfusion hdec
      | none =>
        cases dflt with
        | required =>
          have hfld : decodeField name wire ty .required acc w
              = .error (.missingField wire) := by
            rw [decodeField_eq, hla, decodeFieldW_req]
          rw [decodeFields_cons] at hdec
          simp only [hfld] at hdec
          exact Except.noConfusion hdec
        | none =>
          rw [decodeFields_step name wire ty .none rest acc _ w
            (decodeField_absent_opt name wire ty acc w hla)] at hdec
          exact decode_tag rest _ w out t htag hcont2 hn2 (hsnoc .none false) hdec
        | tag t2 =>
          rw [decodeFields_step name wire ty (.tag t2) rest acc _ w
            (decodeField_absent_tag name wire ty t2 acc w hla)] at hdec
          exact decode_tag rest _ w out t htag hcont2 hn2 (hsnoc (.str t2) false) hdec
termination_by structural fds

mutual
/-- A conformant instance of a well-formed model is structurally well-formed
(distinct wire keys, sequence elements that are entities). -/
theorem conforms_wf_ent (m : Mdl) (e : Ent) (hwf : wfMdl m = true)
    (hc : conformsEnt m e = true) : wfEntS e = true := by
  match m, e with
  | .mk fds, .mk fs =>
    have hcf : conformsFds fds fs .nil = true := hc
    rw [wfMdl, Bool.and_eq_true, Bool.and_eq_true] at hwf
    obtain ⟨⟨hnd, hnames⟩, hwfds⟩ := hwf
    rw [wfEntS, Bool.and_eq_true]
    exact ⟨conforms_nodup fds fs .nil hcf hnd, conforms_wf_fds fds fs .nil hwfds hcf⟩
termination_by (sizeOf e, 0)

/-- Field values of a conformant instance are structurally well-formed. -/
theorem conforms_wf_fds (fds : Fds) (efs : EFs) (acc : EFs)
    (hwf : wfFds fds = true) (hc : conformsFds fds efs acc = true) :
    wfFieldsS efs = true := by
  match fds, efs with
  | .nil, .nil => rfl
  | .cons name wire ty dflt frest, .cons n' wi' v s erest =>
    rw [conformsFds, Bool.and_eq_true, Bool.and_eq_true, Bool.and_eq_true] at hc
    obtain ⟨⟨⟨hn, hw⟩, hval⟩, hrest⟩ := hc
    rw [wfFds, Bool.and_eq_true, Bool.and_eq_true] at hwf
    obtain ⟨⟨hwty, hdok⟩, hwf2⟩ := hwf
    rw [wfFieldsS, Bool.and_eq_true]
    refine ⟨?_, conforms_wf_fds frest erest (efsSnoc acc n' wi' v s) hwf2 hrest⟩
    cases s with
    | true =>
      rw [if_pos rfl] at hval
      by_cases hty : ty = .simpleValue
      · rw [if_pos hty] at hval
        exact conformsSimple_wfValS (infoOf acc) v hval
      · rw [if_neg hty] at hval
        by_cases hvn : v = .none
        · rw [hvn]
          rfl
        · rw [if_neg hvn] at hval
          exact conforms_wf_val ty v hwty hval
    | false =>
      rw [if_neg (by simp)] at hval
      cases dflt <;> cases v <;> try exact Bool.noConfusion hval
      all_goals rfl
  | .nil, .cons .. => exact Bool.noConfusion hc
  | .cons .., .nil => exact Bool.noConfusion hc
termination_by (sizeOf efs, 1)

/-- A set, non-`None` conformant value is structurally well-formed. -/
theorem conforms_wf_val (ty : Ty) (v : Val) (hwf : wfTy ty = true)
    (hc : conformsVal ty v = true) : wfValS v = true := by
  cases ty <;> cases v <;> try exact Bool.noConfusion hc
  case str.str _ => rfl
  case int.int _ => rfl
  case bool.bool _ => rfl
  case dtime.dt _ => rfl
  case ydate.date _ => rfl
  case lit.str _ _ => rfl
  case ent.ent m e =>
    have hm : wfMdl m = true := hwf
    have hce : conformsEnt m e = true := hc
    show wfEntS e = true
    exact conforms_wf_ent m e hm hce
  case seq.seq t vs =>
    rw [wfTy, Bool.and_eq_true] at hwf
    obtain ⟨hse, hwt⟩ := hwf
    have hcl : conformsList t vs = true := hc
    show wfListS vs = true
    exact conforms_wf_list t vs hse hwt hcl
  case union.ent ms e =>
    have hms : wfMdls ms = true := hwf
    simp only [conformsVal] at hc
    cases ht : entTag e with
    | none =>
      simp only [ht] at hc
      exact Bool.noConfusion hc
    | some tg =>
      simp only [ht] at hc
      cases hfv : findVariant tg ms with
      | none =>
        simp only [hfv] at hc
        exact Bool.noConfusion hc
      | some m =>
        simp only [hfv] at hc
        show wfEntS e = true
        exact conforms_wf_ent m e (findVariant_wf tg ms m hms hfv) hc
termination_by (sizeOf v, 0)

/-- Elements of a conformant sequence are well-formed entities. -/
theorem conforms_wf_list (t : Ty) (vs : VList) (hse : seqElemOk t = true)
    (hwt : wfTy t = true) (hc : conformsList t vs = true) :
    wfListS vs = true := by
  match vs with
  | .nil => rfl
  | .cons v rest =>
    rw [conformsList, Bool.and_eq_true] at hc
    obtain ⟨h1, h2⟩ := hc
    have hrest : wfListS rest = true := conforms_wf_list t rest hse hwt h2
    cases t <;> try exact Bool.noConfusion hse
    case ent m =>
      cases v <;> try exact Bool.noConfusion h1
      case ent e =>
        have he : wfEntS e = true := conforms_wf_ent m e hwt h1
        show (wfEntS e && wfListS rest) = true
        rw [he, hrest]
        rfl
    case union ms =>
      cases v <;> try exact Bool.noConfusion h1
      case ent e =>
        simp only [conformsVal] at h1
        have he : wfEntS e = true := by
          cases ht : entTag e with
          | none =>
            simp only [ht] at h1
            exact Bool.noConfusion h1
          | some tg =>
            simp only [ht] at h1
            cases hfv : findVariant tg ms with
            | none =>
              simp only [hfv] at h1
              exact Bool.noConfusion h1
            | some m =>
              simp only [hfv] at h1
              exact conforms_wf_ent m e (findVariant_wf tg ms m hwt hfv) h1
        show (wfEntS e && wfListS rest) = true
        rw [he, hrest]
        rfl
termination_by (sizeOf vs, 1)
end

/-- A wire key found under its alias wins the population. -/
theorem lookupAlias_hit (wire name : String) (w : WObj) (wv : Wire)
    (h : lookupW wire w = some wv) : lookupAlias wire name w = some wv := by
  unfold lookupAlias
  rw [h]

/-- With the alias absent, population falls back to the python name. -/
theorem lookupAlias_miss (wire name : String) (w : WObj)
    (h : lookupW wire w = Option.none) : lookupAlias wire name w = lookupW name w := by
  unfold lookupAlias
  rw [h]


/-- The per-field condition of `fdsNamesOk` (the inner match). -/
def namesOkHead (name wire : String) (all : Fds) : Dflt → Bool
  | .none => nameSafe name wire all
  | _ => true

/-- The defining equation of `fdsNamesOk` on one descriptor. -/
theorem fdsNamesOk_cons (all : Fds) (name wire : String) (ty : Ty) (dflt : Dflt)
    (rest : Fds) :
    fdsNamesOk all (.cons name wire ty dflt rest)
      = (namesOkHead name wire all dflt && fdsNamesOk all rest) := by
  cases dflt <;> rfl

mutual
/-- Decoding the merged wire mapping of a conformant instance of a
well-formed model succeeds and yields a Python-equal instance. -/
theorem decode_model_ok (m : Mdl) (e : Ent) (w : WObj) (hwf : wfMdl m = true)
    (hc : conformsEnt m e = true) (hm : MEnt e w) :
    ∃ e2, decodeModel m w = .ok e2 ∧ eqvEnt e e2 = true := by
  match m, e with
  | .mk fds, .mk fs =>
    have hcf : conformsFds fds fs .nil = true := hc
    rw [wfMdl, Bool.and_eq_true, Bool.and_eq_true] at hwf
    obtain ⟨⟨hnd, hnames⟩, hwfds⟩ := hwf
    cases hm with
    | mk _ _ hmf hkeys =>
      have hsub : ∀ k, lookupW k w ≠ Option.none → fdsHasWire k fds = true := by
        intro k hk
        rw [← conforms_hasWire fds fs .nil hcf k]
        exact hkeys k hk
      obtain ⟨out, hdec, hout⟩ := decode_fields_ok fds fs .nil .nil w fds
        hwfds hnames hcf rfl hmf hsub
      refine ⟨.mk out, ?_, ?_⟩
      · rw [decodeModel_mk, hdec]
        rfl
      · exact hout
termination_by (sizeOf e, 1)

/-- The field loop preserves the invariant: walking descriptors and instance
fields in parallel, with a Python-equal decoded prefix, produces a decoded
list Python-equal to the instance fields. -/
theorem decode_fields_ok (fds : Fds) (efs : EFs) (accC accD : EFs) (w : WObj)
    (allFds : Fds)
    (hwf : wfFds fds = true)
    (hnames : fdsNamesOk allFds fds = true)
    (hc : conformsFds fds efs accC = true)
    (heqv : eqvFields accC accD = true)
    (hmf : MFields efs w)
    (hsub : ∀ k, lookupW k w ≠ Option.none → fdsHasWire k allFds = true) :
    ∃ out, decodeFields fds accD w = .ok out
      ∧ eqvFields (efsConcat accC efs) out = true := by
  match fds, efs with
  | .nil, .nil =>
    refine ⟨accD, decodeFields_nil accD w, ?_⟩
    rw [efsConcat_nil]
    exact heqv
  | .nil, .cons .. => exact Bool.noConfusion hc
  | .cons .., .nil => exact Bool.noConfusion hc
  | .cons name wire ty dflt frest, .cons n' wi' v s erest =>
    rw [conformsFds, Bool.and_eq_true, Bool.and_eq_true, Bool.and_eq_true] at hc
    obtain ⟨⟨⟨hn, hw⟩, hval⟩, hrest⟩ := hc
    have hneq : name = n' := eq_of_beq hn
    have hweq : wire = wi' := eq_of_beq hw
    subst hneq
    subst hweq
    rw [wfFds, Bool.and_eq_true, Bool.and_eq_true] at hwf
    obtain ⟨⟨hwty, hdok⟩, hwf2⟩ := hwf
    rw [fdsNamesOk_cons, Bool.and_eq_true] at hnames
    obtain ⟨hnsafe, hnames2⟩ := hnames
    cases s with
    | true =>
      rw [if_pos rfl] at hval
      cases hmf with
      | consSet _ _ _ _ _ wv hlook hmv hmf2 =>
        have hla : lookupAlias wire name w = some wv := lookupAlias_hit wire name w wv hlook
        by_cases hty : ty = .simpleValue
        · subst hty
          rw [if_pos rfl] at hval
          have hwv : wv = dumpValU v := conformsSimple_mval (infoOf accC) v wv hval hmv
          subst hwv
          obtain ⟨v2, hok, hsc⟩ := conformsSimple_ok (infoOf accC) v hval
          have hinfo : infoOf accC = infoOf accD := infoOf_eqv accC accD heqv
          have hdv : decodeVal .simpleValue dflt accD (dumpValU v) = .ok v2 := by
            rw [decodeVal_eq, if_pos rfl, ← hinfo]
            exact hok
          rw [decodeFields_step name wire .simpleValue dflt frest accD _ w
            (decodeField_found name wire .simpleValue dflt accD w (dumpValU v) v2 hla hdv)]
          obtain ⟨out, hdec, hout⟩ := decode_fields_ok frest erest
            (efsSnoc accC name wire v true) (efsSnoc accD name wire v2 true) w allFds
            hwf2 hnames2 hrest
            (eqvFields_snoc accC accD name wire wire v v2 true true heqv
              (valScalarEq_eqvVal v v2 hsc))
            hmf2 hsub
          refine ⟨out, hdec, ?_⟩
          rw [← efsConcat_snoc]
          exact hout
        · rw [if_neg hty] at hval
          by_cases hvn : v = .none
          · subst hvn
            cases hmv
            rw [if_pos rfl] at hval
            have hdv : decodeVal ty dflt accD .null = .ok .none := by
              rw [decodeVal_eq, if_neg hty, if_pos rfl, if_pos hval]
            rw [decodeFields_step name wire ty dflt frest accD _ w
              (decodeField_found name wire ty dflt accD w .null .none hla hdv)]
            obtain ⟨out, hdec, hout⟩ := decode_fields_ok frest erest
              (efsSnoc accC name wire .none true) (efsSnoc accD name wire .none true) w allFds
              hwf2 hnames2 hrest
              (eqvFields_snoc accC accD name wire wire .none .none true true heqv rfl)
              hmf2 hsub
            refine ⟨out, hdec, ?_⟩
            rw [← efsConcat_snoc]
            exact hout
          · rw [if_neg hvn] at hval
            have hwvn : wv ≠ Wire.null := mval_null v wv hmv hvn
            obtain ⟨v2, hok2, heq2⟩ := decode_tyval_ok ty v wv hwty hval hmv
            have hdv : decodeVal ty dflt accD wv = .ok v2 := by
              rw [decodeVal_eq, if_neg hty, if_neg hwvn]
              exact hok2
            rw [decodeFields_step name wire ty dflt frest accD _ w
              (decodeField_found name wire ty dflt accD w wv v2 hla hdv)]
            obtain ⟨out, hdec, hout⟩ := decode_fields_ok frest erest
              (efsSnoc accC name wire v true) (efsSnoc accD name wire v2 true) w allFds
              hwf2 hnames2 hrest
              (eqvFields_snoc accC accD name wire wire v v2 true true heqv heq2)
              hmf2 hsub
            refine ⟨out, hdec, ?_⟩
            rw [← efsConcat_snoc]
            exact hout
    | false =>
      rw [if_neg (by simp)] at hval
      cases dflt with
      | required => cases v <;> exact Bool.noConfusion hval
      | none =>
        cases v <;> try exact Bool.noConfusion hval
        case none =>
          cases hmf with
          | consDflt _ _ _ _ _ hne hlook hmf2 => exact absurd rfl hne
          | consAbsent _ _ _ _ hlook hmf2 =>
            have hns : nameSafe name wire allFds = true := hnsafe
            have hfall : lookupW name w = Option.none := by
              by_contra hcon
              have h1 : fdsHasWire name allFds = true := hsub name hcon
              have h2 : name = wire := nameSafe_hasWire name wire allFds hns h1
              rw [h2] at hcon
              exact hcon hlook
            have hla : lookupAlias wire name w = Option.none := by
              rw [lookupAlias_miss wire name w hlook]
              exact hfall
            rw [decodeFields_step name wire ty .none frest accD _ w
              (decodeField_absent_opt name wire ty accD w hla)]
            obtain ⟨out, hdec, hout⟩ := decode_fields_ok frest erest
              (efsSnoc accC name wire .none false) (efsSnoc accD name wire .none false)
              w allFds hwf2 hnames2 hrest
              (eqvFields_snoc accC accD name wire wire .none .none false false heqv rfl)
              hmf2 hsub
            refine ⟨out, hdec, ?_⟩
            rw [← efsConcat_snoc]
            exact hout
      | tag t =>
        cases v <;> try exact Bool.noConfusion hval
        case str t' =>
          have htt : t = t' := eq_of_beq hval
          subst htt
          cases hmf with
          | consDflt _ _ _ _ _ hne hlook hmf2 =>
            have hlook2 : lookupW wire w = some (.str t) := hlook
            have hla : lookupAlias wire name w = some (.str t) :=
              lookupAlias_hit wire name w (.str t) hlook2
            cases ty <;> try exact Bool.noConfusion hdok
            case lit tags =>
              have hcont : tags.contains t = true := hdok
              have hdv : decodeVal (.lit tags) (.tag t) accD (.str t) = .ok (.str t) := by
                rw [decodeVal_eq, if_neg (fun hh => Ty.noConfusion hh),
                  if_neg (fun hh => Wire.noConfusion hh), decodeTyVal.eq_def]
                show (if tags.contains t = true then (.ok (.str t) : Except PyErr Val)
                  else .error .invalidValue) = .ok (.str t)
                rw [if_pos hcont]
              rw [decodeFields_step name wire (.lit tags) (.tag t) frest accD _ w
                (decodeField_found name wire (.lit tags) (.tag t) accD w (.str t) (.str t)
                  hla hdv)]
              obtain ⟨out, hdec, hout⟩ := decode_fields_ok frest erest
                (efsSnoc accC name wire (.str t) false)
                (efsSnoc accD name wire (.str t) true) w allFds
                hwf2 hnames2 hrest
                (eqvFields_snoc accC accD name wire wire (.str t) (.str t) false true heqv
                  (by simp [eqvVal]))
                hmf2 hsub
              refine ⟨out, hdec, ?_⟩
              rw [← efsConcat_snoc]
              exact hout
termination_by (sizeOf efs, 1)

/-- A set, non-`None` conformant value decodes from its merged image to a
Python-equal value. -/
theorem decode_tyval_ok (ty : Ty) (v : Val) (wv : Wire) (hwf : wfTy ty = true)
    (hc : conformsVal ty v = true) (hmv : MVal v wv) :
    ∃ v2, decodeTyVal ty wv = .ok v2 ∧ eqvVal v v2 = true := by
  cases ty <;> cases v <;> try exact Bool.noConfusion hc
  case str.str s =>
    cases hmv
    refine ⟨.str s, ?_, by simp [eqvVal]⟩
    rw [decodeTyVal.eq_def]
  case int.int n =>
    cases hmv
    refine ⟨.int n, ?_, by simp [eqvVal]⟩
    rw [decodeTyVal.eq_def]
  case bool.bool b =>
    cases hmv
    refine ⟨.bool b, ?_, by simp [eqvVal]⟩
    rw [decodeTyVal.eq_def]
  case dtime.dt ms =>
    cases hmv
    refine ⟨.dt ms, ?_, by simp [eqvVal]⟩
    rw [decodeTyVal.eq_def]
  case ydate.date d =>
    cases hmv
    refine ⟨.date d, ?_, by simp [eqvVal]⟩
    rw [decodeTyVal.eq_def]
  case lit.str tags s =>
    cases hmv
    have hc2 : tags.contains s = true := hc
    refine ⟨.str s, ?_, by simp [eqvVal]⟩
    rw [decodeTyVal.eq_def]
    show (if tags.contains s = true then (.ok (.str s) : Except PyErr Val)
      else .error .invalidValue) = .ok (.str s)
    rw [if_pos hc2]
  case ent.ent m e =>
    cases hmv with
    | vent _ ws hment =>
      have hm2 : wfMdl m = true := hwf
      have hc2 : conformsEnt m e = true := hc
      obtain ⟨e2, hdec, heq⟩ := decode_model_ok m e ws hm2 hc2 hment
      refine ⟨.ent e2, ?_, heq⟩
      have hred : decodeTyVal (.ent m) (.obj ws) = (decodeModel m ws).map Val.ent := by
        rw [decodeTyVal.eq_def]
      rw [hred, hdec]
      rfl
  case seq.seq t vs =>
    cases hmv with
    | vseq _ ws hml =>
      rw [wfTy, Bool.and_eq_true] at hwf
      obtain ⟨hse, hwt⟩ := hwf
      have hc2 : conformsList t vs = true := hc
      obtain ⟨vs2, hdec, heql⟩ := decode_seq_ok t vs ws hwt hc2 hml
      refine ⟨.seq vs2, ?_, heql⟩
      have hred : decodeTyVal (.seq t) (.arr ws) = (decodeSeq t ws).map Val.seq := by
        rw [decodeTyVal.eq_def]
      rw [hred, hdec]
      rfl
  case union.ent ms e =>
    cases hmv with
    | vent _ ws hment =>
      have hms : wfMdls ms = true := hwf
      obtain ⟨e2, hdec, heq⟩ := decode_union_ok ms e ws hms hc hment
      refine ⟨.ent e2, ?_, heq⟩
      have hred : decodeTyVal (.union ms) (.obj ws) = (decodeUnion ms ws).map Val.ent := by
        rw [decodeTyVal.eq_def]
      rw [hred, hdec]
      rfl
termination_by (sizeOf v, 0)

/-- Sequences decode element-wise to Python-equal sequences. -/
theorem decode_seq_ok (t : Ty) (vs : VList) (ws : WList) (hwf : wfTy t = true)
    (hc : conformsList t vs = true) (hml : MList vs ws) :
    ∃ vs2, decodeSeq t ws = .ok vs2 ∧ eqvList vs vs2 = true := by
  cases hml with
  | nil => exact ⟨.nil, decodeSeq_nil t, rfl⟩
  | cons v wv rest wrest hmv hml2 =>
    rw [conformsList, Bool.and_eq_true] at hc
    obtain ⟨h1, h2⟩ := hc
    obtain ⟨v2, hok, heqv⟩ := decode_tyval_ok t v wv hwf h1 hmv
    obtain ⟨vs2, hdec, heql⟩ := decode_seq_ok t rest wrest hwf h2 hml2
    refine ⟨.cons v2 vs2, ?_, ?_⟩
    · simp only [decodeSeq_cons, hok, hdec, Except.map]
    · show (eqvVal v v2 && eqvList rest vs2) = true
      rw [heqv, heql]
      rfl
termination_by (sizeOf vs, 1)

/-- A conformant union member decodes through the discriminator dispatch to
a Python-equal instance of exactly its own variant. -/
theorem decode_union_ok (ms : Mdls) (e : Ent) (w : WObj) (hwf : wfMdls ms = true)
    (hc : conformsVal (.union ms) (.ent e) = true) (hm : MEnt e w) :
    ∃ e2, decodeUnion ms w = .ok e2 ∧ eqvEnt e e2 = true := by
  simp only [conformsVal] at hc
  cases ht : entTag e with
  | none =>
    simp only [ht] at hc
    exact Bool.noConfusion hc
  | some t =>
    simp only [ht] at hc
    cases hfv : findVariant t ms with
    | none =>
      simp only [hfv] at hc
      exact Bool.noConfusion hc
    | some m =>
      simp only [hfv] at hc
      have hwfm : wfMdl m = true := findVariant_wf t ms m hwf hfv
      have htl : tagLookup w = some (.str t) := by
        cases hm with
        | mk fs _ hmf hkeys =>
          have ht2 : efsTag fs = some t := ht
          have hlk := mfields_tag_lookup fs w t hmf ht2
          show lookupAlias "$type" "type" w = some (.str t)
          exact lookupAlias_hit "$type" "type" w (.str t) hlk
      rw [decodeUnion_found ms w t m htl hfv]
      exact decode_model_ok m e w hwfm hc hm
termination_by (sizeOf e, 2)
end

/-- The per-field content of `obj_to_dict` claimed by the spec: an explicit
`None` survives as `null`, an unset non-`None` (defaulted) field appears with
its dump, an unset `None` (defaultless in the wire sense) field is omitted. -/
def DumpSpec : EFs → WObj → Prop
  | .nil, _ => True
  | .cons _ wire v s rest, w =>
    (s = true → v = .none → lookupW wire w = some .null) ∧
    (s = false → v ≠ .none → lookupW wire w = some (dumpValN v)) ∧
    (s = false → v = .none → lookupW wire w = Option.none) ∧
    DumpSpec rest w

/-- The merged wire mapping satisfies the per-field dump spec. -/
theorem mfields_dumpSpec (fs : EFs) (w : WObj) (h : MFields fs w) : DumpSpec fs w := by
  match fs with
  | .nil => trivial
  | .cons n wire v s rest =>
    cases h with
    | consSet _ _ _ _ _ wv hlook hmv hmf2 =>
      refine ⟨?_, ?_, ?_, mfields_dumpSpec rest w hmf2⟩
      · intro _ hv
        subst hv
        cases hmv
        exact hlook
      · intro hs _
        exact Bool.noConfusion hs
      · intro hs _
        exact Bool.noConfusion hs
    | consDflt _ _ _ _ _ hne hlook hmf2 =>
      refine ⟨?_, ?_, ?_, mfields_dumpSpec rest w hmf2⟩
      · intro hs _
        exact Bool.noConfusion hs
      · intro _ _
        exact hlook
      · intro _ hv
        exact absurd hv hne
    | consAbsent _ _ _ _ hlook hmf2 =>
      refine ⟨?_, ?_, ?_, mfields_dumpSpec rest w hmf2⟩
      · intro hs _
        exact Bool.noConfusion hs
      · intro _ hv
        exact absurd rfl hv
      · intro _ _
        exact hlook
termination_by structural fs

/-- Claim C2: for every entity instance constructible through the public
pydantic constructor of a well-formed model, the dual-pass encoding
`obj_to_dict` succeeds, and validating the resulting wire mapping against
the same model yields an instance Python-equal (`==`) to the original: the
discriminator tag, aliased field names, nested entities and nested
discriminated-union members all survive the encode-then-decode round trip. -/
theorem c2_entity_roundtrip (m : Mdl) (e : Ent) (hwf : wfMdl m = true)
    (hc : conformsEnt m e = true) :
    ∃ w e2, obj_to_dict (some e) = .ok (some (.obj w))
      ∧ decodeModel m w = .ok e2 ∧ eqvEnt e e2 = true := by
  obtain ⟨w, hmerge, hment⟩ := merge_ent_ok e (conforms_wf_ent m e hwf hc)
  obtain ⟨e2, hdec, heq⟩ := decode_model_ok m e w hwf hc hment
  refine ⟨w, e2, ?_, hdec, heq⟩
  rw [obj_to_dict, hmerge]
  rfl

/-- Claim C4: `obj_to_dict` maps a `None` entity to `None`; and for every
structurally well-formed entity it produces a wire mapping in which a field
explicitly set to `None` appears as `null`, a field never set but holding a
non-`None` default (notably the `$type` discriminator) appears with its
dumped default, and a field never set whose default is `None` is omitted. -/
theorem c4_obj_to_dict_nulls :
    obj_to_dict Option.none = .ok Option.none
    ∧ ∀ e, wfEntS e = true →
        ∃ w, obj_to_dict (some e) = .ok (some (.obj w)) ∧ DumpSpec e.fields w := by
  refine ⟨rfl, ?_⟩
  intro e hwf
  obtain ⟨w, hmerge, hment⟩ := merge_ent_ok e hwf
  refine ⟨w, ?_, ?_⟩
  · rw [obj_to_dict, hmerge]
    rfl
  · cases hment with
    | mk fs _ hmf hkeys => exact mfields_dumpSpec fs w hmf

/-- `entities.User`. -/
def User : Mdl := .mk
  (.cons "type" "$type" (.lit ["User", "Me"]) (.tag "User")
  (.cons "id" "id" .str .none
  (.cons "name" "name" .str .none
  (.cons "ring_id" "ringId" .str .none
  (.cons "login" "login" .str .none
  (.cons "email" "email" .str .none .nil))))))

/-- `entities.TextFieldValue`. -/
def TextFieldValue : Mdl := .mk
  (.cons "type" "$type" (.lit ["TextFieldValue"]) (.tag "TextFieldValue")
  (.cons "id" "id" .str .none
  (.cons "text" "text" .str .none
  (.cons "markdownText" "markdownText" .str .none .nil))))

/-- `entities.PeriodValue`. -/
def PeriodValue : Mdl := .mk
  (.cons "type" "$type" (.lit ["PeriodValue"]) (.tag "PeriodValue")
  (.cons "id" "id" .str .none
  (.cons "minutes" "minutes" .int .none
  (.cons "presentation" "presentation" .str .none .nil))))

/-- `entities.BuildBundleElement`. -/
def BuildBundleElement : Mdl := .mk
  (.cons "type" "$type" (.lit ["BuildBundleElement"]) (.tag "BuildBundleElement")
  (.cons "id" "id" .str .none
  (.cons "name" "name" .str .none .nil)))

/-- `entities.VersionBundleElement`. -/
def VersionBundleElement : Mdl := .mk
  (.cons "type" "$type" (.lit ["VersionBundleElement"]) (.tag "VersionBundleElement")
  (.cons "id" "id" .str .none
  (.cons "name" "name" .str .none .nil)))

/-- `entities.OwnedBundleElement`. -/
def OwnedBundleElement : Mdl := .mk
  (.cons "type" "$type" (.lit ["OwnedBundleElement"]) (.tag "OwnedBundleElement")
  (.cons "id" "id" .str .none
  (.cons "name" "name" .str .none .nil)))

/-- `entities.EnumBundleElement`. -/
def EnumBundleElement : Mdl := .mk
  (.cons "type" "$type" (.lit ["EnumBundleElement"]) (.tag "EnumBundleElement")
  (.cons "id" "id" .str .none
  (.cons "name" "name" .str .none .nil)))

/-- `entities.StateBundleElement`. -/
def StateBundleElement : Mdl := .mk
  (.cons "type" "$type" (.lit ["StateBundleElement"]) (.tag "StateBundleElement")
  (.cons "id" "id" .str .none
  (.cons "name" "name" .str .none .nil)))

/-- `entities.UserGroup`. -/
def UserGroup : Mdl := .mk
  (.cons "type" "$type" (.lit ["UserGroup"]) (.tag "UserGroup")
  (.cons "id" "id" .str .none
  (.cons "name" "name" .str .none
  (.cons "ring_id" "ringId" .str .none .nil))))

/-- `entities.FieldType`. -/
def FieldType : Mdl := .mk
  (.cons "type" "$type" (.lit ["FieldType"]) (.tag "FieldType")
  (.cons "id" "id" .str .none .nil))

/-- `entities.CustomField`. -/
def CustomField : Mdl := .mk
  (.cons "type" "$type" (.lit ["CustomField"]) (.tag "CustomField")
  (.cons "field_type" "fieldType" (.ent FieldType) .none .nil))

/-- `entities.GroupProjectCustomField` (it inherits `field` from
`ProjectCustomField`, so the parent field precedes the discriminator). -/
def GroupProjectCustomField : Mdl := .mk
  (.cons "field" "field" (.ent CustomField) .none
  (.cons "type" "$type" (.lit ["GroupProjectCustomField"]) (.tag "GroupProjectCustomField")
    .nil))

/-- `entities.BundleProjectCustomField`. -/
def BundleProjectCustomField : Mdl := .mk
  (.cons "type" "$type" (.lit ["BundleProjectCustomField"]) (.tag "BundleProjectCustomField")
  (.cons "field" "field" (.ent CustomField) .none .nil))

/-- `entities.BuildProjectCustomField`. -/
def BuildProjectCustomField : Mdl := .mk
  (.cons "type" "$type" (.lit ["BuildProjectCustomField"]) (.tag "BuildProjectCustomField")
  (.cons "field" "field" (.ent CustomField) .none .nil))

/-- `entities.EnumProjectCustomField`. -/
def EnumProjectCustomField : Mdl := .mk
  (.cons "type" "$type" (.lit ["EnumProjectCustomField"]) (.tag "EnumProjectCustomField")
  (.cons "field" "field" (.ent CustomField) .none .nil))

/-- `entities.OwnedProjectCustomField`. -/
def OwnedProjectCustomField : Mdl := .mk
  (.cons "type" "$type" (.lit ["OwnedProjectCustomField"]) (.tag "OwnedProjectCustomField")
  (.cons "field" "field" (.ent CustomField) .none .nil))

/-- `entities.StateProjectCustomField`. -/
def StateProjectCustomField : Mdl := .mk
  (.cons "type" "$type" (.lit ["StateProjectCustomField"]) (.tag "StateProjectCustomField")
  (.cons "field" "field" (.ent CustomField) .none .nil))

/-- `entities.UserProjectCustomField`. -/
def UserProjectCustomField : Mdl := .mk
  (.cons "type" "$type" (.lit ["UserProjectCustomField"]) (.tag "UserProjectCustomField")
  (.cons "field" "field" (.ent CustomField) .none .nil))

/-- `entities.VersionProjectCustomField`. -/
def VersionProjectCustomField : Mdl := .mk
  (.cons "type" "$type" (.lit ["VersionProjectCustomField"]) (.tag "VersionProjectCustomField")
  (.cons "field" "field" (.ent CustomField) .none .nil))

/-- `entities.SimpleProjectCustomField`. -/
def SimpleProjectCustomField : Mdl := .mk
  (.cons "type" "$type" (.lit ["SimpleProjectCustomField"]) (.tag "SimpleProjectCustomField")
  (.cons "field" "field" (.ent CustomField) .none .nil))

/-- `entities.TextProjectCustomField`. -/
def TextProjectCustomField : Mdl := .mk
  (.cons "type" "$type" (.lit ["TextProjectCustomField"]) (.tag "TextProjectCustomField")
  (.cons "field" "field" (.ent CustomField) .none .nil))

/-- `entities.PeriodProjectCustomField`. -/
def PeriodProjectCustomField : Mdl := .mk
  (.cons "type" "$type" (.lit ["PeriodProjectCustomField"]) (.tag "PeriodProjectCustomField")
  (.cons "field" "field" (.ent CustomField) .none .nil))

/-- `entities.ProjectCustomFieldType`, the discriminated union of project
custom fields, members in declaration order. -/
def ProjectCustomFieldType : Mdls :=
  .cons GroupProjectCustomField
  (.cons BundleProjectCustomField
  (.cons BuildProjectCustomField
  (.cons EnumProjectCustomField
  (.cons OwnedProjectCustomField
  (.cons StateProjectCustomField
  (.cons UserProjectCustomField
  (.cons VersionProjectCustomField
  (.cons SimpleProjectCustomField
  (.cons TextProjectCustomField
  (.cons PeriodProjectCustomField .nil))))))))))

/-- `entities.TextIssueCustomField`. -/
def TextIssueCustomField : Mdl := .mk
  (.cons "type" "$type" (.lit ["TextIssueCustomField"]) (.tag "TextIssueCustomField")
  (.cons "id" "id" .str .none
  (.cons "name" "name" .str .none
  (.cons "value" "value" (.ent TextFieldValue) .none .nil))))

/-- `entities.SimpleIssueCustomField`. -/
def SimpleIssueCustomField : Mdl := .mk
  (.cons "type" "$type" (.lit ["SimpleIssueCustomField"]) (.tag "SimpleIssueCustomField")
  (.cons "id" "id" .str .none
  (.cons "name" "name" .str .none
  (.cons "project_custom_field" "projectCustomField" (.union ProjectCustomFieldType) .none
  (.cons "value" "value" .simpleValue .none .nil)))))

/-- `entities.DateIssueCustomField`. -/
def DateIssueCustomField : Mdl := .mk
  (.cons "type" "$type" (.lit ["DateIssueCustomField"]) (.tag "DateIssueCustomField")
  (.cons "id" "id" .str .none
  (.cons "name" "name" .str .none
  (.cons "project_custom_field" "projectCustomField" (.union ProjectCustomFieldType) .none
  (.cons "value" "value" .ydate .none .nil)))))

/-- `entities.PeriodIssueCustomField`. -/
def PeriodIssueCustomField : Mdl := .mk
  (.cons "type" "$type" (.lit ["PeriodIssueCustomField"]) (.tag "PeriodIssueCustomField")
  (.cons "id" "id" .str .none
  (.cons "name" "name" .str .none
  (.cons "value" "value" (.ent PeriodValue) .none .nil))))

/-- `entities.MultiBuildIssueCustomField` (its `value` is required). -/
def MultiBuildIssueCustomField : Mdl := .mk
  (.cons "type" "$type" (.lit ["MultiBuildIssueCustomField"]) (.tag "MultiBuildIssueCustomField")
  (.cons "id" "id" .str .none
  (.cons "name" "name" .str .none
  (.cons "value" "value" (.seq (.ent BuildBundleElement)) .required .nil))))

/-- `entities.MultiEnumIssueCustomField`. -/
def MultiEnumIssueCustomField : Mdl := .mk
  (.cons "type" "$type" (.lit ["MultiEnumIssueCustomField"]) (.tag "MultiEnumIssueCustomField")
  (.cons "id" "id" .str .none
  (.cons "name" "name" .str .none
  (.cons "value" "value" (.seq (.ent EnumBundleElement)) .required .nil))))

/-- `entities.MultiGroupIssueCustomField`. -/
def MultiGroupIssueCustomField : Mdl := .mk
  (.cons "type" "$type" (.lit ["MultiGroupIssueCustomField"]) (.tag "MultiGroupIssueCustomField")
  (.cons "id" "id" .str .none
  (.cons "name" "name" .str .none
  (.cons "value" "value" (.seq (.ent UserGroup)) .required .nil))))

/-- `entities.MultiOwnedIssueCustomField`. -/
def MultiOwnedIssueCustomField : Mdl := .mk
  (.cons "type" "$type" (.lit ["MultiOwnedIssueCustomField"]) (.tag "MultiOwnedIssueCustomField")
  (.cons "id" "id" .str .none
  (.cons "name" "name" .str .none
  (.cons "value" "value" (.seq (.ent OwnedBundleElement)) .required .nil))))

/-- `entities.MultiUserIssueCustomField`. -/
def MultiUserIssueCustomField : Mdl := .mk
  (.cons "type" "$type" (.lit ["MultiUserIssueCustomField"]) (.tag "MultiUserIssueCustomField")
  (.cons "id" "id" .str .none
  (.cons "name" "name" .str .none
  (.cons "value" "value" (.seq (.ent User)) .required .nil))))

/-- `entities.MultiVersionIssueCustomField`. -/
def MultiVersionIssueCustomField : Mdl := .mk
  (.cons "type" "$type" (.lit ["MultiVersionIssueCustomField"])
    (.tag "MultiVersionIssueCustomField")
  (.cons "id" "id" .str .none
  (.cons "name" "name" .str .none
  (.cons "value" "value" (.seq (.ent VersionBundleElement)) .required .nil))))

/-- `entities.SingleBuildIssueCustomField`. -/
def SingleBuildIssueCustomField : Mdl := .mk
  (.cons "type" "$type" (.lit ["SingleBuildIssueCustomField"])
    (.tag "SingleBuildIssueCustomField")
  (.cons "id" "id" .str .none
  (.cons "name" "name" .str .none
  (.cons "value" "value" (.ent BuildBundleElement) .none .nil))))

/-- `entities.SingleEnumIssueCustomField`. -/
def SingleEnumIssueCustomField : Mdl := .mk
  (.cons "type" "$type" (.lit ["SingleEnumIssueCustomField"])
    (.tag "SingleEnumIssueCustomField")
  (.cons "id" "id" .str .none
  (.cons "name" "name" .str .none
  (.cons "value" "value" (.ent EnumBundleElement) .none .nil))))

/-- `entities.SingleGroupIssueCustomField`. -/
def SingleGroupIssueCustomField : Mdl := .mk
  (.cons "type" "$type" (.lit ["SingleGroupIssueCustomField"])
    (.tag "SingleGroupIssueCustomField")
  (.cons "id" "id" .str .none
  (.cons "name" "name" .str .none
  (.cons "value" "value" (.ent UserGroup) .none .nil))))

/-- `entities.SingleOwnedIssueCustomField`. -/
def SingleOwnedIssueCustomField : Mdl := .mk
  (.cons "type" "$type" (.lit ["SingleOwnedIssueCustomField"])
    (.tag "SingleOwnedIssueCustomField")
  (.cons "id" "id" .str .none
  (.cons "name" "name" .str .none
  (.cons "value" "value" (.ent OwnedBundleElement) .none .nil))))

/-- `entities.SingleUserIssueCustomField`. -/
def SingleUserIssueCustomField : Mdl := .mk
  (.cons "type" "$type" (.lit ["SingleUserIssueCustomField"])
    (.tag "SingleUserIssueCustomField")
  (.cons "id" "id" .str .none
  (.cons "name" "name" .str .none
  (.cons "value" "value" (.ent User) .none .nil))))

/-- `entities.SingleVersionIssueCustomField`. -/
def SingleVersionIssueCustomField : Mdl := .mk
  (.cons "type" "$type" (.lit ["SingleVersionIssueCustomField"])
    (.tag "SingleVersionIssueCustomField")
  (.cons "id" "id" .str .none
  (.cons "name" "name" .str .none
  (.cons "value" "value" (.ent VersionBundleElement) .none .nil))))

/-- `entities.StateIssueCustomField`. -/
def StateIssueCustomField : Mdl := .mk
  (.cons "type" "$type" (.lit ["StateIssueCustomField"]) (.tag "StateIssueCustomField")
  (.cons "id" "id" .str .none
  (.cons "name" "name" .str .none
  (.cons "value" "value" (.ent StateBundleElement) .none .nil))))

/-- `entities.IssueCustomFieldType`, the discriminated union of issue custom
fields, members in declaration order. -/
def IssueCustomFieldType : Mdls :=
  .cons SingleEnumIssueCustomField
  (.cons MultiEnumIssueCustomField
  (.cons SingleBuildIssueCustomField
  (.cons MultiBuildIssueCustomField
  (.cons StateIssueCustomField
  (.cons SingleVersionIssueCustomField
  (.cons MultiVersionIssueCustomField
  (.cons SingleOwnedIssueCustomField
  (.cons MultiOwnedIssueCustomField
  (.cons SingleUserIssueCustomField
  (.cons MultiUserIssueCustomField
  (.cons SingleGroupIssueCustomField
  (.cons MultiGroupIssueCustomField
  (.cons SimpleIssueCustomField
  (.cons DateIssueCustomField
  (.cons PeriodIssueCustomField
  (.cons TextIssueCustomField .nil))))))))))))))))

/-- `entities.Project`. -/
def Project : Mdl := .mk
  (.cons "type" "$type" (.lit ["Project"]) (.tag "Project")
  (.cons "id" "id" .str .none
  (.cons "name" "name" .str .none
  (.cons "short_name" "shortName" .str .none .nil))))

/-- `entities.Tag`. -/
def Tag : Mdl := .mk
  (.cons "type" "$type" (.lit ["Tag"]) (.tag "Tag")
  (.cons "id" "id" .str .none
  (.cons "name" "name" .str .none .nil)))

/-- `entities.Issue`. -/
def Issue : Mdl := .mk
  (.cons "type" "$type" (.lit ["Issue"]) (.tag "Issue")
  (.cons "id" "id" .str .none
  (.cons "id_readable" "idReadable" .str .none
  (.cons "created" "created" .dtime .none
  (.cons "updated" "updated" .dtime .none
  (.cons "resolved" "resolved" .dtime .none
  (.cons "project" "project" (.ent Project) .none
  (.cons "reporter" "reporter" (.ent User) .none
  (.cons "updater" "updater" (.ent User) .none
  (.cons "summary" "summary" .str .none
  (.cons "description" "description" .str .none
  (.cons "wikified_description" "wikifiedDescription" .str .none
  (.cons "comments_count" "commentsCount" .int .none
  (.cons "tags" "tags" (.seq (.ent Tag)) .none
  (.cons "custom_fields" "customFields" (.seq (.union IssueCustomFieldType)) .none
    .nil)))))))))))))))

/-- Claim C3: decoding a wire payload against the issue-custom-field
discriminated union dispatches on the `$type` value alone: a tag declared by
some variant always decodes against exactly that variant (and any instance
it produces carries that very tag as its discriminator, so it is never a
sibling variant); a missing tag or a tag no variant declares is a decode
error, never a silent default. -/
theorem c3_discriminator_fidelity :
    (∀ kvs, tagLookup kvs = Option.none →
      decodeUnion IssueCustomFieldType kvs = .error .unionTagMissing)
    ∧ (∀ kvs t, tagLookup kvs = some (.str t) →
        findVariant t IssueCustomFieldType = Option.none →
        decodeUnion IssueCustomFieldType kvs = .error .unionTagInvalid)
    ∧ (∀ kvs t m, tagLookup kvs = some (.str t) →
        findVariant t IssueCustomFieldType = some m →
        decodeUnion IssueCustomFieldType kvs = decodeModel m kvs
        ∧ ∀ e2, decodeModel m kvs = .ok e2 → entTag e2 = some t) := by
  refine ⟨fun kvs h => decodeUnion_missing _ kvs h,
    fun kvs t h h2 => decodeUnion_invalid _ kvs t h h2,
    fun kvs t m h h2 => ⟨decodeUnion_found _ kvs t m h h2, ?_⟩⟩
  intro e2 hdec
  obtain ⟨fds⟩ := m
  cases hdm : decodeFields fds .nil kvs with
  | ok out =>
    have he2 : e2 = .mk out := by
      rw [decodeModel_mk, hdm] at hdec
      simp only [Except.map] at hdec
      injection hdec with hh
      exact hh.symm
    subst he2
    show efsTag out = some t
    have hcont : (fdsTags fds).contains t = true :=
      findVariant_contains t IssueCustomFieldType (.mk fds) h2
    have hnamed : fdsTagNamed fds = true :=
      findVariant_named t IssueCustomFieldType (.mk fds) rfl h2
    exact decode_tag fds .nil kvs out t h hcont hnamed rfl hdm
  | error e =>
    rw [decodeModel_mk, hdm] at hdec
    simp only [Except.map] at hdec
    exact Except.noConfusion hdec

/-- An instance of `Project` with a defaulted discriminator, set scalar
fields, and an explicit `None`. -/
def projectInst : Ent := .mk
  (.cons "type" "$type" (.str "Project") false
  (.cons "id" "id" (.str "p1") true
  (.cons "name" "name" (.str "Main") true
  (.cons "short_name" "shortName" .none true .nil))))

/-- An instance of `Tag`. -/
def tagInst : Ent := .mk
  (.cons "type" "$type" (.str "Tag") false
  (.cons "id" "id" (.str "t1") true
  (.cons "name" "name" (.str "urgent") true .nil)))

/-- An instance of `EnumBundleElement`. -/
def enumElemInst : Ent := .mk
  (.cons "type" "$type" (.str "EnumBundleElement") false
  (.cons "id" "id" (.str "el1") true
  (.cons "name" "name" (.str "High") true .nil)))

/-- An instance of `SingleEnumIssueCustomField` with a nested bundle
element. -/
def singleEnumIcfInst : Ent := .mk
  (.cons "type" "$type" (.str "SingleEnumIssueCustomField") false
  (.cons "id" "id" (.str "cf1") true
  (.cons "name" "name" (.str "Priority") true
  (.cons "value" "value" (.ent enumElemInst) true .nil))))

/-- An instance of `SimpleIssueCustomField` holding an integer value (its
construction validator passes it through since the sibling descriptor is
`None`). -/
def simpleIcfInst : Ent := .mk
  (.cons "type" "$type" (.str "SimpleIssueCustomField") false
  (.cons "id" "id" (.str "cf2") true
  (.cons "name" "name" (.str "Estimate") true
  (.cons "project_custom_field" "projectCustomField" .none false
  (.cons "value" "value" (.int 5) true .nil)))))

/-- An instance of `Issue` exercising defaulted discriminators, explicit
`None` fields, aware instants, nested entities, sequences, and nested
discriminated-union members. -/
def issueInst : Ent := .mk
  (.cons "type" "$type" (.str "Issue") false
  (.cons "id" "id" (.str "i1") true
  (.cons "id_readable" "idReadable" .none false
  (.cons "created" "created" (.dt 1612879391000) true
  (.cons "updated" "updated" .none false
  (.cons "resolved" "resolved" .none false
  (.cons "project" "project" (.ent projectInst) true
  (.cons "reporter" "reporter" .none true
  (.cons "updater" "updater" .none false
  (.cons "summary" "summary" (.str "Crash on save") true
  (.cons "description" "description" .none false
  (.cons "wikified_description" "wikifiedDescription" .none false
  (.cons "comments_count" "commentsCount" .none false
  (.cons "tags" "tags" (.seq (.cons (.ent tagInst) .nil)) true
  (.cons "custom_fields" "customFields"
    (.seq (.cons (.ent singleEnumIcfInst) (.cons (.ent simpleIcfInst) .nil))) true
    .nil)))))))))))))))

/-- An instance of `User` with a defaulted discriminator, a set scalar, an
explicit `None`, and unset optional fields. -/
def userInst : Ent := .mk
  (.cons "type" "$type" (.str "User") false
  (.cons "id" "id" (.str "u1") true
  (.cons "name" "name" .none true
  (.cons "ring_id" "ringId" .none false
  (.cons "login" "login" .none false
  (.cons "email" "email" .none false .nil))))))

set_option maxRecDepth 4000 in
/-- The round trip of claim C2 at a concrete `Issue` instance. -/
theorem c2_entity_roundtrip_witness :
    wfMdl Issue = true ∧ conformsEnt Issue issueInst = true
    ∧ ∃ w e2, obj_to_dict (some issueInst) = .ok (some (.obj w))
        ∧ decodeModel Issue w = .ok e2 ∧ eqvEnt issueInst e2 = true :=
  ⟨rfl, rfl, c2_entity_roundtrip Issue issueInst rfl rfl⟩

/-- A payload tagged `SingleEnumIssueCustomField` for claim C3. -/
def sEnumWire : WObj :=
  .cons "$type" (.str "SingleEnumIssueCustomField") (.cons "id" (.str "cf1") .nil)

/-- The union dispatch of claim C3 at a concrete tagged payload. -/
theorem c3_discriminator_fidelity_witness :
    tagLookup sEnumWire = some (.str "SingleEnumIssueCustomField")
    ∧ findVariant "SingleEnumIssueCustomField" IssueCustomFieldType
        = some SingleEnumIssueCustomField
    ∧ (decodeUnion IssueCustomFieldType sEnumWire
        = decodeModel SingleEnumIssueCustomField sEnumWire
      ∧ ∀ e2, decodeModel SingleEnumIssueCustomField sEnumWire = .ok e2
          → entTag e2 = some "SingleEnumIssueCustomField") :=
  ⟨rfl, rfl, c3_discriminator_fidelity.2.2 sEnumWire "SingleEnumIssueCustomField"
    SingleEnumIssueCustomField rfl rfl⟩

/-- The dump behavior of claim C4 at a concrete `User` instance. -/
theorem c4_obj_to_dict_nulls_witness :
    wfEntS userInst = true
    ∧ ∃ w, obj_to_dict (some userInst) = .ok (some (.obj w)) ∧ DumpSpec userInst.fields w :=
  ⟨rfl, c4_obj_to_dict_nulls.2 userInst rfl⟩
